import Mathlib

set_option linter.unusedTactic false
set_option linter.unreachableTactic false

/-!
# sinusoidal_velocity_node: bring-up, control loop and shutdown of Teknic SC axes

A shallow embedding of `main` of `src/sinusoidal_velocity_node.cpp` as a
deterministic small-step machine, one program point per statement of the source,
run against an environment that answers every call (hardware SDK, clock, stop
signal).  The machine records every call it makes, with the answer it got, in a
trace; the properties proved are about these traces, the exit code and the content
of `velocity_log.csv`.

Numbers: a `double` is the rational it denotes.  The sums of lines 59 and 70, the
difference and the quotient of line 93 and the products of line 94 are rounded to
the nearest `double` (`roundDouble`; overflow and underflow are left out), the
constant `PI` is the `double` the literal compiles to (`PI_D`), the cosine of the
math library is a parameter `cosd` of the velocity (`velocityD`), and a row of the
log holds the numbers its text denotes, 6 significant digits each (`sig6`).  The
sample runs use `cosSample` for the cosine.  The machine itself is generic in the
velocity expression `vel` and in the rendering `fmt` of a velocity.  The log file
is assumed to open (line 87).
-/

namespace SinusoidalVelocityNode

/-! ## Constants of the source (lines 9-20) -/

/-- The macro `NET_CONTROLLER_MAX`, redefined to 10 at line 10. -/
def NET_CONTROLLER_MAX : Nat := 10

/-- The macro `TIME_TILL_TIMEOUT` (milliseconds), line 15. -/
def TIME_TILL_TIMEOUT : ℚ := 10000

/-- The macro `PI`, line 16: a decimal literal. -/
def PI : ℚ := 3.141592653589793

/-- The macro `FREQUENCY_HZ`, line 18. -/
def FREQUENCY_HZ : ℚ := 0.5

/-- The macro `ACC_LIM_RPM_PER_SEC`, line 19. -/
def ACC_LIM_RPM_PER_SEC : Nat := 100000

/-- The macro `VEL_LIM_RPM`, line 20. -/
def VEL_LIM_RPM : Nat := 400

/-- The rate of `ros::Rate loop_rate(50)`, line 26, in Hz. -/
def LOOP_RATE_HZ : ℚ := 50

/-! ## Double arithmetic and text output -/

/-- Round to the nearest integer, ties to even. -/
def rne (y : ℚ) : ℤ :=
  if y - ⌊y⌋ < 1 / 2 then ⌊y⌋
  else if 1 / 2 < y - ⌊y⌋ then ⌊y⌋ + 1
  else if ⌊y⌋ % 2 = 0 then ⌊y⌋ else ⌊y⌋ + 1

/-- Round `x` to `p + 1` significant digits in base `b`, to nearest, ties to even
(no bound on the exponent). -/
def roundTo (b : ℕ) (p : ℤ) (x : ℚ) : ℚ :=
  if x = 0 then 0
  else (rne (x / (b : ℚ) ^ (Int.log b |x| - p)) : ℚ) * (b : ℚ) ^ (Int.log b |x| - p)

/-- The nearest `double`: 53 significant bits. -/
def roundDouble (x : ℚ) : ℚ := roundTo 2 52 x

/-- The number that `<<` writes for a `double` in the default format of a stream:
6 significant decimal digits. -/
def sig6 (x : ℚ) : ℚ := roundTo 10 5 x

/-- The `double` the literal `PI` compiles to. -/
def PI_D : ℚ := roundDouble PI

/-- The argument of `cos` at line 94, `2 * PI * FREQUENCY_HZ * t_sec`, in `double`
arithmetic, the products taken from the left. -/
def phase (t : ℚ) : ℚ :=
  roundDouble (roundDouble (roundDouble (2 * PI_D) * FREQUENCY_HZ) * t)

/-- The expression of line 94 in `double` arithmetic, for the cosine `cosd` of the
math library. -/
def velocityD (cosd : ℚ → ℚ) (t : ℚ) : ℚ :=
  roundDouble ((VEL_LIM_RPM : ℚ) * cosd (phase t))

/-- The expression of line 94, `VEL_LIM_RPM * cos(2 * PI * FREQUENCY_HZ * t_sec)`,
over the reals, with the `double` of the constant `PI`: what the `double`
computation approximates. -/
noncomputable def velocity (t : ℝ) : ℝ :=
  (VEL_LIM_RPM : ℝ) * Real.cos (2 * (PI_D : ℝ) * (FREQUENCY_HZ : ℝ) * t)

/-- The velocity of line 94 over the reals at a value `t_sec` computed from clock
readings. -/
noncomputable def velocityQ (t : ℚ) : ℝ := velocity (t : ℝ)

/-- The constant π to 35 decimals, for the sample cosine. -/
def PI_REF : ℚ := 3.14159265358979323846264338327950288

/-- The Taylor polynomial of degree 20 of the cosine. -/
def cosSeries (y : ℚ) : ℚ :=
  ∑ i in Finset.range 11, (-1) ^ i * y ^ (2 * i) / (Nat.factorial (2 * i))

/-- The Taylor polynomial of degree 21 of the sine. -/
def sinSeries (y : ℚ) : ℚ :=
  ∑ i in Finset.range 11, (-1) ^ i * y ^ (2 * i + 1) / (Nat.factorial (2 * i + 1))

/-- The multiple of π/2 nearest to `x`. -/
def quadrant (x : ℚ) : ℤ := rne (x / (PI_REF / 2))

/-- The argument `x` reduced by the nearest multiple of π/2. -/
def reduced (x : ℚ) : ℚ := x - quadrant x * (PI_REF / 2)

/-- A cosine for the sample runs, in place of the one of the math library: the
argument is reduced to [-π/4, π/4] by the nearest multiple of π/2, and the Taylor
polynomial of the cosine or of the sine at the reduced argument is rounded to the
nearest `double`. -/
def cosSample (x : ℚ) : ℚ :=
  roundDouble (
    if quadrant x % 4 = 0 then cosSeries (reduced x)
    else if quadrant x % 4 = 1 then -sinSeries (reduced x)
    else if quadrant x % 4 = 2 then -cosSeries (reduced x)
    else sinSeries (reduced x))

/-- The expression of line 94 with the sample cosine. -/
def velS : ℚ → ℚ := velocityD cosSample

/-! ## Calls and their answers -/

/-- An axis: the port index `i` and the node index `iNode` of the two loops. -/
abbrev Axis := Nat × Nat

/-- The messages printed through `ROS_INFO` and `ROS_ERROR`. -/
inductive Msg where
  | starting
  | noHubs
  | failedToEnable (iNode : Nat)
  | homingTimedOut (iNode : Nat)
  | homed (iNode : Nat)
  | stopped (iNode : Nat)
  | allClosed
  | teknicError
  deriving DecidableEq, Repr

/-- One line of `velocity_log.csv`: the header, or a row, held as the two numbers
its text denotes. -/
inductive LogLine (V : Type) where
  | header
  | row (t : ℚ) (v : V)
  deriving DecidableEq, Repr

/-- One entry of the trace: a call the program made, with the answer it got. -/
inductive Event (V : Type) where
  | rosInfo (m : Msg)
  | rosError (m : Msg)
  | findComHubPorts (found : List String)
  | comHubPort (idx : Nat) (name : String)
  | portsOpen (n : Nat)
  | ports (i : Nat)
  | nodeCount (i : Nat) (n : Nat)
  | nodes (a : Axis)
  | enableReq (a : Axis) (b : Bool)
  | delay (ms : Nat)
  | alertsClear (a : Axis)
  | nodeStopClear (a : Axis)
  | timeStampMsec (t : ℚ)
  | isReady (a : Axis) (b : Bool)
  | homingValid (a : Axis) (b : Bool)
  | wasHomed (a : Axis) (b : Bool)
  | initiate (a : Axis)
  | velUnit (a : Axis)
  | accUnit (a : Axis)
  | accLimit (a : Axis) (n : Nat)
  | velLimit (a : Axis) (n : Nat)
  | logOpen
  | logWrite (l : LogLine V)
  | logClose
  | rosOk (b : Bool)
  | moveVelStart (a : Axis) (v : V)
  | spinOnce
  | sleep
  | portsClose
  | mnErr
  deriving DecidableEq, Repr

/-- The environment: what the hub discovery finds and, for the call made at step
`k` of the run, whether it throws `mnErr` and what it answers.  Any stub, clock
and stop signal, stateful or not, gives such answers along the run. -/
structure Env where
  /-- the list `FindComHubPorts` fills in -/
  hubs : List String
  /-- the SDK call made at step `k` throws `mnErr` -/
  fault : Nat → Bool
  /-- the answer when the call at step `k` returns a `bool`
  (`IsReady`, `HomingValid`, `WasHomed`, `ros::ok`) -/
  flag : Nat → Bool
  /-- the answer when the call at step `k` is `TimeStampMsec` -/
  clock : Nat → ℚ
  /-- the answer when the call at step `k` is `NodeCount` -/
  count : Nat → Nat

/-- Program points, named after the statement about to run. -/
inductive PC where
  | findPorts | comHubPort | portsOpen | portLoop | ports | nodeLoop | nodes
  | disableReq | delay | alertsClear | nodeStopClear | enableReq | enableDeadline
  | isReady | enableCheck
  | homingValid | wasHomedCheck | initiate | homingDeadline | wasHomed | homingCheck
  | velUnit | accUnit | accLimit | velLimit
  | logOpen | logHeader | timeStart
  | rosOk | loopClock | moveVel | logRow | spinOnce | sleep
  | moveZero | disableEnd | logClose
  | portsClose | handler
  | done (code : Int)
  | aborted
  deriving DecidableEq, Repr

/-- The state of `main`: the program point, the locals, the step counter, the
trace of calls made so far and the content of the log file. -/
structure State (V : Type) where
  pc : PC
  /-- number of steps taken: the index of the next answer of the environment -/
  k : Nat
  portCount : Nat
  i : Nat
  iNode : Nat
  timeout : ℚ
  timeStartMs : ℚ
  t_sec : ℚ
  vel : V
  /-- the stream `logFile` exists and is open -/
  logIsOpen : Bool
  /-- content of `velocity_log.csv` -/
  file : List (LogLine V)
  trace : List (Event V)

variable {V : Type}

/-- The axis the loops are at. -/
def State.axis (s : State V) : Axis := (s.i, s.iNode)

/-- The state `main` starts its `try` block in (lines 24-32). -/
def init [Zero V] : State V :=
  { pc := .findPorts, k := 0, portCount := 0, i := 0, iNode := 0, timeout := 0,
    timeStartMs := 0, t_sec := 0, vel := 0, logIsOpen := false, file := [],
    trace := [.rosInfo .starting] }

/-- Move to program point `pc`, recording the events `es`. -/
def State.goto (s : State V) (pc : PC) (es : List (Event V)) : State V :=
  { s with pc := pc, k := s.k + 1, trace := s.trace ++ es }

/-- An SDK call throws `mnErr`: the stack unwinds to the handler of line 113; a
live `logFile` is closed by its destructor on the way. -/
def State.raise (s : State V) : State V :=
  { s with pc := .handler, k := s.k + 1, logIsOpen := false,
           trace := s.trace ++ (Event.mnErr :: if s.logIsOpen then [Event.logClose] else []) }

/-- An SDK call inside the `try` block: it throws, or the run goes on as `ok`. -/
def sdk (env : Env) (s : State V) (ok : State V) : State V :=
  if env.fault s.k then s.raise else ok

/-- One statement of `main` (lines 34-120).  `vel` is the expression of line 94 as
a function of `t_sec`, `fmt` the number that line 97 writes for a velocity. -/
def step [Zero V] (vel : ℚ → V) (fmt : V → V) (env : Env) (s : State V) : State V :=
  match s.pc with
  | .findPorts =>        -- lines 35-39
    sdk env s <|
      if env.hubs.isEmpty then
        s.goto (.done (-1)) [.findComHubPorts env.hubs, .rosError .noHubs]
      else { s.goto .comHubPort [.findComHubPorts env.hubs] with portCount := 0 }
  | .comHubPort =>       -- lines 41-43
    if s.portCount < env.hubs.length ∧ s.portCount < NET_CONTROLLER_MAX then
      sdk env s
        { s.goto .comHubPort [.comHubPort s.portCount (env.hubs.getD s.portCount "")] with
          portCount := s.portCount + 1 }
    else s.goto .portsOpen []
  | .portsOpen =>        -- line 45
    sdk env s { s.goto .portLoop [.portsOpen s.portCount] with i := 0 }
  | .portLoop =>         -- line 47
    if s.i < s.portCount then s.goto .ports [] else s.goto .portsClose []
  | .ports =>            -- line 48
    sdk env s { s.goto .nodeLoop [.ports s.i] with iNode := 0 }
  | .nodeLoop =>         -- line 49
    sdk env s <|
      if s.iNode < env.count s.k then s.goto .nodes [.nodeCount s.i (env.count s.k)]
      else { s.goto .portLoop [.nodeCount s.i (env.count s.k)] with i := s.i + 1 }
  | .nodes =>            -- line 50
    sdk env s (s.goto .disableReq [.nodes s.axis])
  | .disableReq =>       -- line 52
    sdk env s (s.goto .delay [.enableReq s.axis false])
  | .delay =>            -- line 53
    sdk env s (s.goto .alertsClear [.delay 200])
  | .alertsClear =>      -- line 55
    sdk env s (s.goto .nodeStopClear [.alertsClear s.axis])
  | .nodeStopClear =>    -- line 56
    sdk env s (s.goto .enableReq [.nodeStopClear s.axis])
  | .enableReq =>        -- line 57
    sdk env s (s.goto .enableDeadline [.enableReq s.axis true])
  | .enableDeadline =>   -- line 59
    sdk env s { s.goto .isReady [.timeStampMsec (env.clock s.k)] with
                timeout := roundDouble (env.clock s.k + TIME_TILL_TIMEOUT) }
  | .isReady =>          -- line 60
    sdk env s <|
      if env.flag s.k then s.goto .homingValid [.isReady s.axis true]
      else s.goto .enableCheck [.isReady s.axis false]
  | .enableCheck =>      -- lines 61-64
    sdk env s <|
      if env.clock s.k > s.timeout then
        s.goto (.done (-2)) [.timeStampMsec (env.clock s.k), .rosError (.failedToEnable s.iNode)]
      else s.goto .isReady [.timeStampMsec (env.clock s.k)]
  | .homingValid =>      -- line 68, left operand of &&
    sdk env s <|
      if env.flag s.k then s.goto .wasHomedCheck [.homingValid s.axis true]
      else s.goto .velUnit [.homingValid s.axis false]
  | .wasHomedCheck =>    -- line 68, right operand of &&
    sdk env s <|
      if env.flag s.k then s.goto .velUnit [.wasHomed s.axis true]
      else s.goto .initiate [.wasHomed s.axis false]
  | .initiate =>         -- line 69
    sdk env s (s.goto .homingDeadline [.initiate s.axis])
  | .homingDeadline =>   -- line 70
    sdk env s { s.goto .wasHomed [.timeStampMsec (env.clock s.k)] with
                timeout := roundDouble (env.clock s.k + TIME_TILL_TIMEOUT) }
  | .wasHomed =>         -- lines 71, 77
    sdk env s <|
      if env.flag s.k then s.goto .velUnit [.wasHomed s.axis true, .rosInfo (.homed s.iNode)]
      else s.goto .homingCheck [.wasHomed s.axis false]
  | .homingCheck =>      -- lines 72-75
    sdk env s <|
      if env.clock s.k > s.timeout then
        s.goto (.done (-3)) [.timeStampMsec (env.clock s.k), .rosError (.homingTimedOut s.iNode)]
      else s.goto .wasHomed [.timeStampMsec (env.clock s.k)]
  | .velUnit =>          -- line 81
    sdk env s (s.goto .accUnit [.velUnit s.axis])
  | .accUnit =>          -- line 82
    sdk env s (s.goto .accLimit [.accUnit s.axis])
  | .accLimit =>         -- line 83
    sdk env s (s.goto .velLimit [.accLimit s.axis ACC_LIM_RPM_PER_SEC])
  | .velLimit =>         -- line 84
    sdk env s (s.goto .logOpen [.velLimit s.axis VEL_LIM_RPM])
  | .logOpen =>          -- line 87: the file is created anew
    { s.goto .logHeader [.logOpen] with logIsOpen := true, file := [] }
  | .logHeader =>        -- line 88
    { s.goto .timeStart [.logWrite .header] with file := s.file ++ [.header] }
  | .timeStart =>        -- line 90
    sdk env s { s.goto .rosOk [.timeStampMsec (env.clock s.k)] with
                timeStartMs := env.clock s.k }
  | .rosOk =>            -- line 92
    if env.flag s.k then s.goto .loopClock [.rosOk true]
    else s.goto .moveZero [.rosOk false]
  | .loopClock =>        -- lines 93-94
    sdk env s { s.goto .moveVel [.timeStampMsec (env.clock s.k)] with
                t_sec := roundDouble (roundDouble (env.clock s.k - s.timeStartMs) / 1000)
                vel := vel (roundDouble (roundDouble (env.clock s.k - s.timeStartMs) / 1000)) }
  | .moveVel =>          -- line 96
    sdk env s (s.goto .logRow [.moveVelStart s.axis s.vel])
  | .logRow =>           -- line 97
    { s.goto .spinOnce [.logWrite (.row (sig6 s.t_sec) (fmt s.vel))] with
      file := s.file ++ [.row (sig6 s.t_sec) (fmt s.vel)] }
  | .spinOnce =>         -- line 99
    s.goto .sleep [.spinOnce]
  | .sleep =>            -- line 100
    s.goto .rosOk [.sleep]
  | .moveZero =>         -- line 104
    sdk env s (s.goto .disableEnd [.moveVelStart s.axis 0])
  | .disableEnd =>       -- line 105
    sdk env s (s.goto .logClose [.enableReq s.axis false])
  | .logClose =>         -- lines 106-108, then iNode++
    { s.goto .nodeLoop [.logClose, .rosInfo (.stopped s.iNode)] with
      logIsOpen := false, iNode := s.iNode + 1 }
  | .portsClose =>       -- lines 111-112, 120
    sdk env s (s.goto (.done 0) [.portsClose, .rosInfo .allClosed])
  | .handler =>          -- lines 114-117; an error thrown here leaves main
    if env.fault s.k then s.goto .aborted [.rosError .teknicError, .mnErr]
    else s.goto (.done (-4)) [.rosError .teknicError, .portsClose]
  | .done _ => s
  | .aborted => s

/-- The state after `n` statements. -/
def run [Zero V] (vel : ℚ → V) (fmt : V → V) (env : Env) : Nat → State V
  | 0 => init
  | n + 1 => step vel fmt env (run vel fmt env n)

/-- The state `n` statements after `s`. -/
def runFrom [Zero V] (vel : ℚ → V) (fmt : V → V) (env : Env) (s : State V) : Nat → State V
  | 0 => s
  | n + 1 => step vel fmt env (runFrom vel fmt env s n)

/-- What `main` returned, when it has. -/
def State.exitCode (s : State V) : Option Int :=
  match s.pc with
  | .done c => some c
  | _ => none

/-- The run is over: `main` returned, or an error left it. -/
def State.halted (s : State V) : Bool :=
  match s.pc with
  | .done _ => true
  | .aborted => true
  | _ => false

/-! ## Predicates on traces and states -/

/-- In `tr` a homing check of axis `a` found homing valid and not yet done, and
`p2` is what follows that check. -/
def HomingOwed (a : Axis) (tr p2 : List (Event V)) : Prop :=
  ∃ p1, tr = p1 ++ Event.homingValid a true :: Event.wasHomed a false :: p2

/-- Every velocity command of the trace comes after a readiness poll of the same
axis that answered true and, when a homing check of that axis before it found
homing valid and not done, after a later `WasHomed` poll that answered true. -/
def ReadyBeforeMotion (tr : List (Event V)) : Prop :=
  ∀ pre post a v, tr = pre ++ Event.moveVelStart a v :: post →
    Event.isReady a true ∈ pre ∧ ∀ p2, HomingOwed a pre p2 → Event.wasHomed a true ∈ p2

/-- Axis `a` comes before axis `b` in the order of the two loops. -/
def Axis.before (a b : Axis) : Prop := a.1 < b.1 ∨ (a.1 = b.1 ∧ a.2 < b.2)

/-- Axis `a` is `b` or comes before it. -/
def Axis.upTo (a b : Axis) : Prop := a.1 < b.1 ∨ (a.1 = b.1 ∧ a.2 ≤ b.2)

/-- Where the homing checks recorded so far can lie, by program point: none before
the loops, only for earlier axes until the check of the current axis, and answered
once the current axis is past its bring-up. -/
def HomingInv (s : State V) : Prop :=
  match s.pc with
  | .findPorts | .comHubPort | .portsOpen => ∀ a p2, ¬ HomingOwed a s.trace p2
  | .portLoop | .ports => ∀ a p2, HomingOwed a s.trace p2 → a.1 < s.i
  | .nodeLoop | .nodes | .disableReq | .delay | .alertsClear | .nodeStopClear | .enableReq
  | .enableDeadline | .isReady | .enableCheck | .homingValid | .wasHomedCheck =>
    ∀ a p2, HomingOwed a s.trace p2 → Axis.before a s.axis
  | .initiate | .homingDeadline | .wasHomed | .homingCheck | .disableEnd | .logClose =>
    ∀ a p2, HomingOwed a s.trace p2 → Axis.upTo a s.axis
  | .velUnit | .accUnit | .accLimit | .velLimit | .logOpen | .logHeader | .timeStart
  | .rosOk | .loopClock | .moveVel | .logRow | .spinOnce | .sleep | .moveZero =>
    (∀ a p2, HomingOwed a s.trace p2 → Axis.upTo a s.axis) ∧
      ∀ p2, HomingOwed s.axis s.trace p2 → Event.wasHomed s.axis true ∈ p2
  | _ => True

/-- Past the enable wait the trace holds a readiness poll of the current axis that
answered true. -/
def ReadyInv (s : State V) : Prop :=
  match s.pc with
  | .homingValid | .wasHomedCheck | .initiate | .homingDeadline | .wasHomed | .homingCheck
  | .velUnit | .accUnit | .accLimit | .velLimit | .logOpen | .logHeader | .timeStart
  | .rosOk | .loopClock | .moveVel | .logRow | .spinOnce | .sleep | .moveZero =>
    Event.isReady s.axis true ∈ s.trace
  | _ => True

/-- Where the `Initiate` calls recorded so far can lie, by program point: none
before the loops, only for earlier axes until the current axis starts homing. -/
def InitiateInv (s : State V) : Prop :=
  match s.pc with
  | .findPorts | .comHubPort | .portsOpen => ∀ a, Event.initiate a ∉ s.trace
  | .portLoop | .ports => ∀ a, Event.initiate a ∈ s.trace → a.1 < s.i
  | .nodeLoop | .nodes | .disableReq | .delay | .alertsClear | .nodeStopClear | .enableReq
  | .enableDeadline | .isReady | .enableCheck | .homingValid | .wasHomedCheck | .initiate =>
    ∀ a, Event.initiate a ∈ s.trace → Axis.before a s.axis
  | .portsClose | .handler | .done _ | .aborted => True
  | _ => ∀ a, Event.initiate a ∈ s.trace → Axis.upTo a s.axis

/-- The run is past the homing check of axis `c` without homing it: it configures
or drives `c`, or is at a later axis, or winds up. -/
def PastCheck (c : Axis) (s : State V) : Prop :=
  match s.pc with
  | .findPorts | .comHubPort | .portsOpen => False
  | .portLoop | .ports => c.1 < s.i
  | .nodeLoop | .nodes | .disableReq | .delay | .alertsClear | .nodeStopClear | .enableReq
  | .enableDeadline | .isReady | .enableCheck | .homingValid | .wasHomedCheck | .initiate
  | .homingDeadline | .wasHomed | .homingCheck => Axis.before c s.axis
  | .velUnit | .accUnit | .accLimit | .velLimit | .logOpen | .logHeader | .timeStart
  | .rosOk | .loopClock | .moveVel | .logRow | .spinOnce | .sleep | .moveZero
  | .disableEnd | .logClose => Axis.upTo c s.axis
  | .done code => code = -3 → Axis.before c s.axis
  | .portsClose | .handler | .aborted => True

/-- The run is at the homing check of line 68 and the check lets homing be
skipped: `HomingValid` answers false, or it answers true and `WasHomed` answers
true. -/
def HomingSkipped (env : Env) (s : State V) : Prop :=
  s.pc = .homingValid ∧ env.fault s.k = false ∧
    (env.flag s.k = false ∨
      (env.flag s.k = true ∧ env.fault (s.k + 1) = false ∧ env.flag (s.k + 1) = true))

/-! ## Sample environments -/

/-- One hub with one node, no faults, every clock reading 0, a node that is ready
and homed at the first poll, and a stop signal that lets one control cycle run. -/
def envOneAxis : Env :=
  { hubs := ["COM1"], fault := fun _ => false, flag := fun k => decide (k < 30),
    clock := fun _ => 0, count := fun k => if k < 10 then 1 else 0 }

/-- The events of `N` rounds of the enable wait (lines 60-61) that start at step
`k`: a readiness poll of axis `a` that answers false, then a clock reading. -/
def failedPolls (env : Env) (a : Axis) (k : Nat) : Nat → List (Event V)
  | 0 => []
  | N + 1 =>
    Event.isReady a false :: Event.timeStampMsec (env.clock (k + 1)) :: failedPolls env a (k + 2) N

/-- From step `k` on, the enable wait goes `N` rounds without leaving: no call
throws, each readiness poll answers false and each clock reading that follows is
not strictly greater than the deadline `T`. -/
def WaitsFor (env : Env) (T : ℚ) (k N : Nat) : Prop :=
  ∀ j, j < N →
    env.fault (k + 2 * j) = false ∧ env.flag (k + 2 * j) = false ∧
    env.fault (k + 2 * j + 1) = false ∧ ¬ env.clock (k + 2 * j + 1) > T

/-- One hub with one node, no faults, a clock that advances 1000 ms per call, and a
node that never becomes ready. -/
def envNeverReady : Env :=
  { hubs := ["COM1"], fault := fun _ => false, flag := fun _ => false,
    clock := fun k => 1000 * k, count := fun _ => 1 }

/-- The value of `t_sec` (line 93) in the control cycle that starts at step `k`,
when `timeStart` is `t0`: the clock is read at step `k + 1`. -/
def cycleTime (env : Env) (t0 : ℚ) (k : Nat) : ℚ :=
  roundDouble (roundDouble (env.clock (k + 1) - t0) / 1000)

/-- The events of one control cycle (lines 92-100) that starts at step `k`. -/
def cycleEvents (vel : ℚ → V) (fmt : V → V) (env : Env) (a : Axis) (t0 : ℚ) (k : Nat) :
    List (Event V) :=
  [Event.rosOk true, Event.timeStampMsec (env.clock (k + 1)),
   Event.moveVelStart a (vel (cycleTime env t0 k)),
   Event.logWrite (.row (sig6 (cycleTime env t0 k)) (fmt (vel (cycleTime env t0 k)))),
   Event.spinOnce, Event.sleep]

/-- The events of `K` control cycles in a row, the first starting at step `k`. -/
def cyclesEvents (vel : ℚ → V) (fmt : V → V) (env : Env) (a : Axis) (t0 : ℚ) (k : Nat) :
    Nat → List (Event V)
  | 0 => []
  | K + 1 => cycleEvents vel fmt env a t0 k ++ cyclesEvents vel fmt env a t0 (k + 6) K

/-- The log rows of `K` control cycles in a row, the first starting at step `k`. -/
def cycleRows (vel : ℚ → V) (fmt : V → V) (env : Env) (t0 : ℚ) (k : Nat) :
    Nat → List (LogLine V)
  | 0 => []
  | K + 1 =>
    LogLine.row (sig6 (cycleTime env t0 k)) (fmt (vel (cycleTime env t0 k))) ::
      cycleRows vel fmt env t0 (k + 6) K

/-- The values sent in `K` control cycles in a row, the first starting at step `k`. -/
def cycleValues (vel : ℚ → V) (env : Env) (t0 : ℚ) (k : Nat) : Nat → List V
  | 0 => []
  | K + 1 => vel (cycleTime env t0 k) :: cycleValues vel env t0 (k + 6) K

/-- From step `k` on the control loop runs `K` cycles: each `ros::ok()` answers
true and neither `TimeStampMsec` nor `MoveVelStart` throws. -/
def LoopRuns (env : Env) (k K : Nat) : Prop :=
  ∀ j, j < K →
    env.flag (k + 6 * j) = true ∧ env.fault (k + 6 * j + 1) = false ∧
    env.fault (k + 6 * j + 2) = false

/-- The events of the shutdown of lines 104-107 after the stop signal. -/
def shutdownEvents (a : Axis) [Zero V] : List (Event V) :=
  [Event.rosOk false, Event.moveVelStart a 0, Event.enableReq a false, Event.logClose,
   Event.rosInfo (.stopped a.2)]

/-- From step `k`, where the log file is opened (line 87), the control-loop run
goes `K` cycles and then sees the stop signal, and no call throws. -/
def StopsAfter (env : Env) (k K : Nat) : Prop :=
  env.fault (k + 2) = false ∧ LoopRuns env (k + 3) K ∧ env.flag (k + 3 + 6 * K) = false ∧
    env.fault (k + 3 + 6 * K + 1) = false ∧ env.fault (k + 3 + 6 * K + 2) = false

/-- The list holds exactly one element with property `p`. -/
def ExactlyOne {α : Type} (p : α → Prop) (es : List α) : Prop :=
  ∃ pre x post, es = pre ++ x :: post ∧ p x ∧ (∀ e, e ∈ pre → ¬ p e) ∧ ∀ e, e ∈ post → ¬ p e

/-- A velocity command with value 0. -/
def IsZeroCommand [Zero V] (e : Event V) : Prop := ∃ a, e = Event.moveVelStart a 0

/-- A disable request, `EnableReq(false)`. -/
def IsDisable (e : Event V) : Prop := ∃ a, e = Event.enableReq a false

/-- As `envOneAxis`, but the first `MoveVelStart` of the control loop throws. -/
def envLoopFault : Env :=
  { hubs := ["COM1"], fault := fun k => decide (k = 26), flag := fun k => decide (k < 30),
    clock := fun _ => 0, count := fun k => if k < 10 then 1 else 0 }

/-- The values sent by the velocity commands of a list of events, in order. -/
def dispatched : List (Event V) → List V
  | [] => []
  | Event.moveVelStart _ v :: es => v :: dispatched es
  | _ :: es => dispatched es

/-- The velocity column of the rows of a log, in order. -/
def rowValues : List (LogLine V) → List V
  | [] => []
  | LogLine.row _ v :: ls => v :: rowValues ls
  | LogLine.header :: ls => rowValues ls

/-- One hub with one node, ready and homed at once, a control loop of 100 cycles
and a clock that reads 0 until the loop starts and advances 20 ms per cycle. -/
def envHundred : Env :=
  { hubs := ["COM1"], fault := fun _ => false, flag := fun k => decide (k < 624),
    clock := fun k => ((20 * ((k - 25) / 6) : Nat) : ℚ), count := fun k => if k < 10 then 1 else 0 }

/-- The last enable request in the trace is `EnableReq(true)` for axis `a`. -/
def LastEnableTrue (a : Axis) (tr : List (Event V)) : Prop :=
  ∃ p q, tr = p ++ Event.enableReq a true :: q ∧ ∀ b c, Event.enableReq b c ∉ q

/-- Homing of axis `a` was initiated and since then only `WasHomed` polls that
answered false, clock readings and the error report were recorded: nothing was
sent to stop it. -/
def HomingPending (a : Axis) (tr : List (Event V)) : Prop :=
  ∃ p q, tr = p ++ Event.initiate a :: q ∧
    ∀ e, e ∈ q → e = Event.wasHomed a false ∨ (∃ t, e = Event.timeStampMsec t) ∨
      ∃ m, e = Event.rosError m

/-- The trace ends with a clock reading strictly above the deadline `T` and the
report `m` of the timeout. -/
def EndsAtTimeout (T : ℚ) (m : Msg) (tr : List (Event V)) : Prop :=
  ∃ pre t, tr = pre ++ [Event.timeStampMsec t, Event.rosError m] ∧ t > T

/-- Program points of the enable wait and of the homing check, with the exit of
the enable timeout. -/
def PC.inEnableWait : PC → Bool
  | .enableDeadline | .isReady | .enableCheck | .homingValid | .wasHomedCheck | .initiate => true
  | .done c => c = -2
  | _ => false

/-- Program points of the homing wait, with the exit of the homing timeout. -/
def PC.inHomingWait : PC → Bool
  | .homingDeadline | .wasHomed | .homingCheck => true
  | .done c => c = -3
  | _ => false

/-- The run has returned 0 or -4. -/
def PC.closedPorts : PC → Bool
  | .done c => c = 0 ∨ c = -4
  | _ => false

/-- What the trace looks like during the waits of the bring-up and at their
timeouts, and when the ports have been closed. -/
def TeardownInv (s : State V) : Prop :=
  (s.pc.inEnableWait = true ∨ s.pc.inHomingWait = true → LastEnableTrue s.axis s.trace) ∧
  (s.pc.inHomingWait = true → HomingPending s.axis s.trace) ∧
  (s.pc = .done (-2) → EndsAtTimeout s.timeout (.failedToEnable s.iNode) s.trace) ∧
  (s.pc = .done (-3) → EndsAtTimeout s.timeout (.homingTimedOut s.iNode) s.trace) ∧
  (Event.portsClose ∈ s.trace ↔ s.pc.closedPorts = true)

/-- The statement about to run calls the SDK inside the `try` block of lines
34-113.  The head of the loop of line 41 calls `ComHubPort` only while its
condition holds; the heads of the other loops, the stream operations of lines
87-88, 97 and 106 and the ROS calls of lines 92, 99 and 100 call no SDK function. -/
def State.atSdkCall (env : Env) (s : State V) : Bool :=
  match s.pc with
  | .findPorts | .portsOpen | .ports | .nodeLoop | .nodes | .disableReq | .delay
  | .alertsClear | .nodeStopClear | .enableReq | .enableDeadline | .isReady | .enableCheck
  | .homingValid | .wasHomedCheck | .initiate | .homingDeadline | .wasHomed | .homingCheck
  | .velUnit | .accUnit | .accLimit | .velLimit | .timeStart | .loopClock | .moveVel
  | .moveZero | .disableEnd | .portsClose => true
  | .comHubPort => decide (s.portCount < env.hubs.length ∧ s.portCount < NET_CONTROLLER_MAX)
  | _ => false

/-- An SDK call of the `try` block raises `mnErr` at state `s`: the statement about
to run calls the SDK and the environment makes that call throw. -/
def Throws (env : Env) (s : State V) : Prop :=
  s.atSdkCall env = true ∧ env.fault s.k = true

/-- One hub with one node, no faults, a clock that advances 1000 ms per call, and a
node that answers its first two readiness polls with false and the third with
true. -/
def envSlowReady : Env :=
  { hubs := ["COM1"], fault := fun _ => false, flag := fun k => decide (18 ≤ k),
    clock := fun k => 1000 * k, count := fun _ => 1 }

/-- One hub with one node that never becomes ready, no faults, and a clock that
reads 0.1 ms until the entry to the enable wait and 10000.1 ms ever after (the
`double`s nearest to 0.1 and to 10000.1). -/
def envPinned : Env :=
  { hubs := ["COM1"], fault := fun _ => false, flag := fun _ => false,
    clock := fun k =>
      if k ≤ 13 then 3602879701896397 / 2 ^ 55 else 5497613114461389 / 2 ^ 39,
    count := fun _ => 1 }

/-- The error of the library cosine `cosd` at the argument `x`. -/
noncomputable def cosErr (cosd : ℚ → ℚ) (x : ℚ) : ℝ :=
  |((cosd x : ℚ) : ℝ) - Real.cos (x : ℝ)|

/-- A bound on the distance between the velocity that line 94 computes in `double`
arithmetic at `t_sec = t` and `VEL_LIM_RPM * cos (PI * t)` over the reals: the
rounding of the product by `VEL_LIM_RPM`, the error of the library cosine and the
rounding of its argument. -/
noncomputable def velErr (cosd : ℚ → ℚ) (t : ℚ) : ℝ :=
  (VEL_LIM_RPM : ℝ) * (2 ^ (-53 : ℤ) * (1 + cosErr cosd (phase t)) + cosErr cosd (phase t) +
    2 ^ (-53 : ℤ) * (PI_D : ℝ) * |(t : ℝ)|)

/-- The library cosine `cosd` has relative error at most `r` at the argument `x`. -/
def CosWithin (cosd : ℚ → ℚ) (r : ℝ) (x : ℚ) : Prop :=
  |((cosd x : ℚ) : ℝ) - Real.cos (x : ℝ)| ≤ r * |Real.cos (x : ℝ)|

/-- The clock is the deterministic one of the log-fidelity test: in the control-loop
run whose log is opened at step `k`, the reading of cycle `j` is `j / Rate` seconds
after the reading `timeStart`. -/
def ClockTicks (env : Env) (k K : Nat) : Prop :=
  ∀ j, j < K → env.clock (k + 3 + 6 * j + 1) = env.clock (k + 2) + 1000 * (j / LOOP_RATE_HZ)

/-- The value of `t_sec` (line 93) in cycle `j` against the deterministic clock:
the reading is `1000 * (j / Rate)` ms after `timeStart`. -/
def tickTime (j : Nat) : ℚ := roundDouble (roundDouble (1000 * (j / LOOP_RATE_HZ)) / 1000)

/-! ## Properties -/

/-! ### Rounding -/

theorem rne_abs_sub_le (y : ℚ) : |(rne y : ℚ) - y| ≤ 1 / 2 := by
  have h1 := Int.floor_le y
  have h2 := Int.lt_floor_add_one y
  unfold rne
  split_ifs with ha hb hc
  · rw [abs_le]; constructor <;> linarith
  · rw [abs_le]; push_cast; constructor <;> linarith
  · rw [abs_le]; push_cast at *; constructor <;> linarith
  · rw [abs_le]; push_cast at *; constructor <;> linarith

theorem rne_of_near (y : ℚ) (n : ℤ) (h : |y - n| < 1 / 2) : rne y = n := by
  have hr := rne_abs_sub_le y
  rw [abs_lt] at h
  rw [abs_le] at hr
  have : |((rne y - n : ℤ) : ℚ)| < 1 := by
    rw [abs_lt]; push_cast; constructor <;> linarith
  have h0 : rne y - n = 0 := by
    have : |rne y - n| < 1 := by exact_mod_cast this
    exact Int.abs_lt_one_iff.mp this
  omega

theorem log_eq_of_bounds (b : ℕ) (hb : 1 < b) (x : ℚ) (e : ℤ)
    (h1 : (b : ℚ) ^ e ≤ |x|) (h2 : |x| < (b : ℚ) ^ (e + 1)) : Int.log b |x| = e := by
  have hpos : 0 < |x| := lt_of_lt_of_le (zpow_pos (by exact_mod_cast (by omega : 0 < b)) e) h1
  have a1 : e ≤ Int.log b |x| := (Int.zpow_le_iff_le_log hb hpos).mp h1
  have a2 : Int.log b |x| < e + 1 := (Int.lt_zpow_iff_log_lt hb hpos).mp h2
  omega

theorem roundTo_eq (b : ℕ) (hb : 1 < b) (p : ℤ) (x : ℚ) (e : ℤ)
    (h1 : (b : ℚ) ^ e ≤ |x|) (h2 : |x| < (b : ℚ) ^ (e + 1)) :
    roundTo b p x = (rne (x / (b : ℚ) ^ (e - p)) : ℚ) * (b : ℚ) ^ (e - p) := by
  have hpos : 0 < |x| := lt_of_lt_of_le (zpow_pos (by exact_mod_cast (by omega : 0 < b)) e) h1
  have hx : x ≠ 0 := abs_pos.mp hpos
  unfold roundTo
  rw [if_neg hx, log_eq_of_bounds b hb x e h1 h2]

theorem roundTo_near (b : ℕ) (hb : 1 < b) (p : ℤ) (x : ℚ) (e n : ℤ)
    (h1 : (b : ℚ) ^ e ≤ |x|) (h2 : |x| < (b : ℚ) ^ (e + 1))
    (hn : |x / (b : ℚ) ^ (e - p) - n| < 1 / 2) :
    roundTo b p x = (n : ℚ) * (b : ℚ) ^ (e - p) := by
  rw [roundTo_eq b hb p x e h1 h2, rne_of_near _ n hn]

/-- The rounding error is at most half a unit in the last place. -/
theorem roundTo_err (b : ℕ) (hb : 1 < b) (p : ℤ) (x : ℚ) :
    |roundTo b p x - x| ≤ |x| * (b : ℚ) ^ (-p) / 2 := by
  by_cases hx : x = 0
  · simp [roundTo, hx]
  have hpos : 0 < |x| := abs_pos.mpr hx
  have hb0 : (0 : ℚ) < b := by exact_mod_cast (by omega : 0 < b)
  have h1 : (b : ℚ) ^ (Int.log b |x|) ≤ |x| := Int.zpow_log_le_self hb hpos
  set e := Int.log b |x| with he
  have hq : (0 : ℚ) < (b : ℚ) ^ (e - p) := zpow_pos hb0 _
  unfold roundTo
  rw [if_neg hx, ← he]
  have hr := rne_abs_sub_le (x / (b : ℚ) ^ (e - p))
  have e1 : (rne (x / (b : ℚ) ^ (e - p)) : ℚ) * (b : ℚ) ^ (e - p) - x
      = ((rne (x / (b : ℚ) ^ (e - p)) : ℚ) - x / (b : ℚ) ^ (e - p)) * (b : ℚ) ^ (e - p) := by
    field_simp
  rw [e1, abs_mul, abs_of_pos hq]
  have e2 : (b : ℚ) ^ (e - p) = (b : ℚ) ^ e * (b : ℚ) ^ (-p) := by
    rw [sub_eq_add_neg, zpow_add₀ hb0.ne']
  have hp : (0 : ℚ) < (b : ℚ) ^ (-p) := zpow_pos hb0 _
  calc |(rne (x / (b : ℚ) ^ (e - p)) : ℚ) - x / (b : ℚ) ^ (e - p)| * (b : ℚ) ^ (e - p)
      ≤ 1 / 2 * (b : ℚ) ^ (e - p) := by
        apply mul_le_mul_of_nonneg_right hr hq.le
    _ = (b : ℚ) ^ e * (b : ℚ) ^ (-p) / 2 := by rw [e2]; ring
    _ ≤ |x| * (b : ℚ) ^ (-p) / 2 := by
        apply div_le_div_of_nonneg_right _ (by norm_num)
        exact mul_le_mul_of_nonneg_right h1 hp.le

theorem roundDouble_err (x : ℚ) : |roundDouble x - x| ≤ |x| * 2 ^ (-53 : ℤ) := by
  have := roundTo_err 2 (by norm_num) 52 x
  unfold roundDouble
  have e : ((2 : ℕ) : ℚ) ^ (-(52 : ℤ)) / 2 = 2 ^ (-53 : ℤ) := by norm_num
  calc |roundTo 2 52 x - x| ≤ |x| * ((2 : ℕ) : ℚ) ^ (-(52 : ℤ)) / 2 := this
    _ = |x| * 2 ^ (-53 : ℤ) := by rw [mul_div_assoc, e]

/-! ### The trajectory generator (line 94) -/

theorem velocity_eq (t : ℝ) : velocity t = 400 * Real.cos ((PI_D : ℝ) * t) := by
  unfold velocity VEL_LIM_RPM FREQUENCY_HZ
  have h : (2 : ℝ) * (PI_D : ℝ) * ((0.5 : ℚ) : ℝ) * t = (PI_D : ℝ) * t := by
    push_cast; ring
  rw [h]; norm_num

/-- The cosine is 1-Lipschitz. -/
theorem abs_cos_sub_cos_le (x y : ℝ) : |Real.cos x - Real.cos y| ≤ |x - y| := by
  rw [Real.cos_sub_cos]
  have h1 : |Real.sin ((x + y) / 2)| ≤ 1 := Real.abs_sin_le_one _
  have h2 : |Real.sin ((x - y) / 2)| ≤ |(x - y) / 2| := Real.abs_sin_le_abs
  have h3 : |(x - y) / 2| = |x - y| / 2 := by rw [abs_div]; norm_num
  rw [abs_mul, abs_mul, abs_neg]
  have h4 : |(2 : ℝ)| = 2 := by norm_num
  rw [h4]
  have h5 : 0 ≤ |Real.sin ((x - y) / 2)| := abs_nonneg _
  nlinarith [abs_nonneg (Real.sin ((x + y) / 2)), abs_nonneg (x - y)]

/-! ### Invariants of the run -/

/-- A property that holds at the start and is kept by every statement holds along
the whole run. -/
theorem run_invariant [Zero V] (vel : ℚ → V) (fmt : V → V) (env : Env) (P : State V → Prop)
    (h0 : P init) (hs : ∀ s, P s → P (step vel fmt env s)) : ∀ n, P (run vel fmt env n) := by
  intro n
  induction n with
  | zero => exact h0
  | succ n ih => exact hs _ ih

theorem abs_velocity_le (t : ℝ) : |velocity t| ≤ 400 := by
  rw [velocity_eq, abs_mul]
  have h := Real.abs_cos_le_one ((PI_D : ℝ) * t)
  have h4 : |(400 : ℝ)| = 400 := by norm_num
  rw [h4]; linarith

/-- A statement leaves the local `velocity` alone or sets it to a value of the
expression of line 94. -/
theorem step_vel [Zero V] (vel : ℚ → V) (fmt : V → V) (env : Env) (s : State V) :
    (step vel fmt env s).vel = s.vel ∨ ∃ q, (step vel fmt env s).vel = vel q := by
  rcases s with ⟨pc, k, portCount, i, iNode, timeout, timeStartMs, t_sec, v, lo, file, tr⟩
  cases pc <;> simp only [step, sdk, State.raise, State.goto] <;> (try split_ifs) <;>
    simp

/-- A statement only appends to the trace, and a velocity command it appends is
for the axis the loops are at, with the local `velocity` at line 96 and with 0 at
line 104. -/
theorem step_trace [Zero V] (vel : ℚ → V) (fmt : V → V) (env : Env) (s : State V) :
    ∃ es, (step vel fmt env s).trace = s.trace ++ es ∧
      ∀ a v, Event.moveVelStart a v ∈ es →
        es = [Event.moveVelStart a v] ∧
        a = s.axis ∧ ((s.pc = .moveVel ∧ v = s.vel) ∨ (s.pc = .moveZero ∧ v = 0)) := by
  rcases s with ⟨pc, k, portCount, i, iNode, timeout, timeStartMs, t_sec, v, lo, file, tr⟩
  cases pc <;> simp only [step, sdk, State.raise, State.goto] <;> (try split_ifs) <;>
    first
    | (refine ⟨_, rfl, ?_⟩; simp [State.axis])
    | exact ⟨[], by simp⟩

/-- Along a run the local `velocity` and every value sent to an axis stay within
the velocity limit. -/
theorem run_bounded (fmt : ℝ → ℝ) (env : Env) (n : Nat) :
    |(run velocityQ fmt env n).vel| ≤ 400 ∧
      ∀ a v, Event.moveVelStart a v ∈ (run velocityQ fmt env n).trace → |v| ≤ 400 := by
  refine run_invariant velocityQ fmt env
    (fun s => |s.vel| ≤ 400 ∧ ∀ a v, Event.moveVelStart a v ∈ s.trace → |v| ≤ 400) ?_ ?_ n
  · simp [init]
  · rintro s ⟨hv, ht⟩
    constructor
    · rcases step_vel velocityQ fmt env s with h | ⟨q, h⟩
      · rw [h]; exact hv
      · rw [h]; exact abs_velocity_le _
    · obtain ⟨es, he, hes⟩ := step_trace velocityQ fmt env s
      intro a v hm
      rw [he, List.mem_append] at hm
      rcases hm with hm | hm
      · exact ht a v hm
      · rcases (hes a v hm).2.2 with ⟨_, h⟩ | ⟨_, h⟩
        · rw [h]; exact hv
        · rw [h]; simp

/-! ### Bring-up before motion -/

/-- Appending events none of which is a failed `WasHomed` poll of `a` adds no
homing check of `a`: every check lies in the old trace. -/
theorem HomingOwed.of_append {a : Axis} {tr es p2 : List (Event V)}
    (hes : Event.wasHomed a false ∉ es) (h : HomingOwed a (tr ++ es) p2) :
    ∃ q, p2 = q ++ es ∧ HomingOwed a tr q := by
  obtain ⟨p1, hp⟩ := h
  rcases List.append_eq_append_iff.mp hp with ⟨m, h1, h2⟩ | ⟨m, h1, h2⟩
  · -- p1 = tr ++ m, es = m ++ pattern
    exfalso; apply hes; rw [h2]; simp
  · -- tr = p1 ++ m, pattern = m ++ es
    match m, h2 with
    | [], h2 => exfalso; apply hes; rw [← List.nil_append es, ← h2]; simp
    | [x], h2 =>
      exfalso; apply hes
      simp only [List.singleton_append, List.cons.injEq] at h2
      rw [← h2.2]; simp
    | x :: y :: m, h2 =>
      simp only [List.cons_append, List.cons.injEq] at h2
      obtain ⟨rfl, rfl, rfl⟩ := h2
      exact ⟨m, rfl, p1, by simpa using h1⟩

/-- A homing check of `a` in an extended trace lies in the old trace, unless the
extension holds a failed `WasHomed` poll of `a`. -/
theorem HomingOwed.append_cases {a : Axis} {tr es p2 : List (Event V)}
    (h : HomingOwed a (tr ++ es) p2) :
    Event.wasHomed a false ∈ es ∨ ∃ q, p2 = q ++ es ∧ HomingOwed a tr q := by
  by_cases hes : Event.wasHomed a false ∈ es
  · exact Or.inl hes
  · exact Or.inr (HomingOwed.of_append hes h)

/-- A bound on the axes with a homing check carries over to an extended trace. -/
theorem HomingOwed.bound_append {R R' : Axis → Prop} {tr es : List (Event V)}
    (h : ∀ a p2, HomingOwed a tr p2 → R a) (hR : ∀ a, R a → R' a)
    (hes : ∀ a, Event.wasHomed a false ∈ es → R' a) :
    ∀ a p2, HomingOwed a (tr ++ es) p2 → R' a := by
  intro a p2 hp
  rcases HomingOwed.append_cases hp with hm | ⟨q, _, hq⟩
  · exact hes a hm
  · exact hR a (h a q hq)

/-- Answered homing checks stay answered when the trace is extended. -/
theorem HomingOwed.answered_append {c : Axis} {tr es : List (Event V)}
    (h : ∀ p2, HomingOwed c tr p2 → Event.wasHomed c true ∈ p2)
    (hes : Event.wasHomed c false ∉ es) :
    ∀ p2, HomingOwed c (tr ++ es) p2 → Event.wasHomed c true ∈ p2 := by
  intro p2 hp
  obtain ⟨q, rfl, hq⟩ := HomingOwed.of_append hes hp
  exact List.mem_append_left _ (h q hq)

/-- A `WasHomed` poll that answers true answers every homing check before it. -/
theorem HomingOwed.answered_new {c : Axis} {tr es : List (Event V)}
    (hes : Event.wasHomed c false ∉ es) (hin : Event.wasHomed c true ∈ es) :
    ∀ p2, HomingOwed c (tr ++ es) p2 → Event.wasHomed c true ∈ p2 := by
  intro p2 hp
  obtain ⟨q, rfl, _⟩ := HomingOwed.of_append hes hp
  exact List.mem_append_right _ hin

/-- An axis without a homing check so far has none that is unanswered. -/
theorem HomingOwed.answered_fresh {R : Axis → Prop} {c : Axis} {tr es : List (Event V)}
    (h : ∀ a p2, HomingOwed a tr p2 → R a) (hc : ¬ R c)
    (hes : Event.wasHomed c false ∉ es) :
    ∀ p2, HomingOwed c (tr ++ es) p2 → Event.wasHomed c true ∈ p2 := by
  intro p2 hp
  obtain ⟨q, _, hq⟩ := HomingOwed.of_append hes hp
  exact absurd (h c q hq) hc

set_option maxHeartbeats 2000000 in
/-- Every statement keeps `HomingInv`. -/
theorem step_homingInv [Zero V] (vel : ℚ → V) (fmt : V → V) (env : Env) (s : State V)
    (h : HomingInv s) : HomingInv (step vel fmt env s) := by
  rcases s with ⟨pc, k, portCount, i, iNode, timeout, timeStartMs, t_sec, v, lo, file, tr⟩
  cases pc <;> simp only [step, sdk, State.raise, State.goto, State.axis, HomingInv] at h ⊢ <;>
    (try split_ifs) <;> (try simp only [HomingInv, State.axis, List.append_nil]) <;>
    first
    | trivial
    | exact h
    | (refine HomingOwed.bound_append h ?_ ?_ <;>
       (first
        | (intro a hm
           first
           | (simp at hm; done)
           | (simp only [Axis.before, Axis.upTo] at hm ⊢; omega)
           | (simp at hm; subst hm; simp [Axis.upTo]))
        | (simp [Axis.before, Axis.upTo]; done)))
    | (refine HomingOwed.bound_append h.1 ?_ ?_ <;>
       (first
        | (intro a hm
           first
           | (simp at hm; done)
           | (simp only [Axis.before, Axis.upTo] at hm ⊢; omega)
           | (simp at hm; subst hm; simp [Axis.upTo]))
        | (simp [Axis.before, Axis.upTo]; done)))
    | (refine ⟨HomingOwed.bound_append h.1 ?_ ?_, HomingOwed.answered_append h.2 ?_⟩ <;>
       (first
        | (intro a hm
           first
           | (simp at hm; done)
           | (simp only [Axis.before, Axis.upTo] at hm ⊢; omega)
           | (simp at hm; subst hm; simp [Axis.upTo]))
        | (simp [Axis.before, Axis.upTo]; done)))
    | (refine ⟨HomingOwed.bound_append h ?_ ?_, HomingOwed.answered_new ?_ ?_⟩ <;>
       (first
        | (intro a hm
           first
           | (simp at hm; done)
           | (simp only [Axis.before, Axis.upTo] at hm ⊢; omega)
           | (simp at hm; subst hm; simp [Axis.upTo]))
        | (simp [Axis.before, Axis.upTo]; done)))
    | (refine ⟨HomingOwed.bound_append h ?_ ?_, HomingOwed.answered_fresh h ?_ ?_⟩ <;>
       (first
        | (intro a hm
           first
           | (simp at hm; done)
           | (simp only [Axis.before, Axis.upTo] at hm ⊢; omega)
           | (simp at hm; subst hm; simp [Axis.upTo]))
        | (simp [Axis.before, Axis.upTo]; done)))

/-- Every statement keeps `ReadyInv`. -/
theorem step_readyInv [Zero V] (vel : ℚ → V) (fmt : V → V) (env : Env) (s : State V)
    (h : ReadyInv s) : ReadyInv (step vel fmt env s) := by
  rcases s with ⟨pc, k, portCount, i, iNode, timeout, timeStartMs, t_sec, v, lo, file, tr⟩
  cases pc <;> simp only [step, sdk, State.raise, State.goto, State.axis, ReadyInv] at h ⊢ <;>
    (try split_ifs) <;> (try simp only [ReadyInv, State.axis, List.append_nil]) <;>
    first
    | trivial
    | exact h
    | exact List.mem_append_left _ h
    | simp

/-- Where an element of an extended list lies: in the old part or in the
extension. -/
theorem split_append {α : Type} {tr es pre post : List α} {x : α}
    (h : tr ++ es = pre ++ x :: post) :
    (∃ m, tr = pre ++ x :: m ∧ post = m ++ es) ∨ (∃ m, pre = tr ++ m ∧ es = m ++ x :: post) := by
  rcases List.append_eq_append_iff.mp h with ⟨m, h1, h2⟩ | ⟨m, h1, h2⟩
  · exact Or.inr ⟨m, h1, h2⟩
  · cases m with
    | nil =>
      refine Or.inr ⟨[], ?_, ?_⟩
      · simpa using h1.symm
      · simpa using h2.symm
    | cons y m =>
      simp only [List.cons_append, List.cons.injEq] at h2
      obtain ⟨rfl, rfl⟩ := h2
      exact Or.inl ⟨m, h1, rfl⟩

/-- Extending the trace keeps `ReadyBeforeMotion` when a velocity command in the
extension is the whole extension and is for an axis that was polled ready, with
its homing checks answered. -/
theorem readyBeforeMotion_append {tr es : List (Event V)} (h : ReadyBeforeMotion tr)
    (hes : ∀ a v, Event.moveVelStart a v ∈ es →
      es = [Event.moveVelStart a v] ∧ Event.isReady a true ∈ tr ∧
        ∀ p2, HomingOwed a tr p2 → Event.wasHomed a true ∈ p2) :
    ReadyBeforeMotion (tr ++ es) := by
  intro pre post a v hsplit
  rcases split_append hsplit with ⟨m, h1, _⟩ | ⟨m, h1, h2⟩
  · exact h pre m a v h1
  · have hmem : Event.moveVelStart a v ∈ es := by rw [h2]; simp
    obtain ⟨he, hr, ho⟩ := hes a v hmem
    rw [he] at h2
    cases m with
    | nil =>
      simp only [List.append_nil] at h1
      subst h1
      exact ⟨hr, ho⟩
    | cons y m => simp at h2

/-- What the run keeps true for C1. -/
theorem run_motionInv [Zero V] (vel : ℚ → V) (fmt : V → V) (env : Env) (n : Nat) :
    HomingInv (run vel fmt env n) ∧ ReadyInv (run vel fmt env n) ∧
      ReadyBeforeMotion (run vel fmt env n).trace := by
  refine run_invariant vel fmt env
    (fun s => HomingInv s ∧ ReadyInv s ∧ ReadyBeforeMotion s.trace) ?_ ?_ n
  · refine ⟨?_, trivial, ?_⟩
    · intro a p2 ⟨p1, hp⟩
      cases p1 with
      | nil => simp [init] at hp
      | cons x p1 => simp [init] at hp
    · intro pre post a v hp
      cases pre with
      | nil => simp [init] at hp
      | cons x p1 => simp [init] at hp
  · rintro s ⟨hh, hr, hm⟩
    refine ⟨step_homingInv vel fmt env s hh, step_readyInv vel fmt env s hr, ?_⟩
    obtain ⟨es, he, hes⟩ := step_trace vel fmt env s
    rw [he]
    apply readyBeforeMotion_append hm
    intro a v hmem
    obtain ⟨h1, rfl, h3⟩ := hes a v hmem
    refine ⟨h1, ?_, ?_⟩
    · rcases h3 with ⟨hpc, _⟩ | ⟨hpc, _⟩ <;> simpa [ReadyInv, hpc] using hr
    · rcases h3 with ⟨hpc, _⟩ | ⟨hpc, _⟩ <;>
        (simp only [HomingInv, hpc] at hh; exact hh.2)

/-- C1: in every run, against any environment, every velocity command sent to an
axis, the zero command of the shutdown included, comes after a readiness poll of
that axis that answered true and, when the homing check of that axis found homing
valid and not done, after a later WasHomed poll of that axis that answered true. -/
theorem velocity_command_after_bringup [Zero V] (vel : ℚ → V) (fmt : V → V) (env : Env) (n : Nat)
    (pre post : List (Event V)) (a : Axis) (v : V)
    (h : (run vel fmt env n).trace = pre ++ Event.moveVelStart a v :: post) :
    Event.isReady a true ∈ pre ∧
      ∀ p1 p2, pre = p1 ++ Event.homingValid a true :: Event.wasHomed a false :: p2 →
        Event.wasHomed a true ∈ p2 := by
  obtain ⟨hr, ho⟩ := (run_motionInv vel fmt env n).2.2 pre post a v h
  exact ⟨hr, fun p1 p2 hp => ho p2 ⟨p1, hp⟩⟩

theorem velocity_command_after_bringup_witness :
    Event.isReady (0, 0) true ∈ (run velS sig6 envOneAxis 26).trace ∧
      ∀ p1 p2, (run velS sig6 envOneAxis 26).trace
          = p1 ++ Event.homingValid (0, 0) true :: Event.wasHomed (0, 0) false :: p2 →
        Event.wasHomed (0, 0) true ∈ p2 :=
  velocity_command_after_bringup velS sig6 envOneAxis 27
    (run velS sig6 envOneAxis 26).trace [] (0, 0) (run velS sig6 envOneAxis 26).vel rfl

/-! ### Homing skip -/

theorem runFrom_run [Zero V] (vel : ℚ → V) (fmt : V → V) (env : Env) (n m : Nat) :
    runFrom vel fmt env (run vel fmt env n) m = run vel fmt env (n + m) := by
  induction m with
  | zero => rfl
  | succ m ih => simp only [runFrom, ih]; rfl

theorem runFrom_add [Zero V] (vel : ℚ → V) (fmt : V → V) (env : Env) (s : State V) (n m : Nat) :
    runFrom vel fmt env (runFrom vel fmt env s n) m = runFrom vel fmt env s (n + m) := by
  induction m with
  | zero => rfl
  | succ m ih => simp only [runFrom, ih]; rfl

set_option maxHeartbeats 2000000 in
/-- Every statement keeps `InitiateInv`. -/
theorem step_initiateInv [Zero V] (vel : ℚ → V) (fmt : V → V) (env : Env) (s : State V)
    (h : InitiateInv s) : InitiateInv (step vel fmt env s) := by
  rcases s with ⟨pc, k, portCount, i, iNode, timeout, timeStartMs, t_sec, v, lo, file, tr⟩
  cases pc <;> simp only [step, sdk, State.raise, State.goto, State.axis, InitiateInv] at h ⊢ <;>
    (try split_ifs) <;> (try simp only [InitiateInv, State.axis, List.append_nil]) <;>
    first
    | trivial
    | exact h
    | (intro a hm
       simp only [List.mem_append, List.mem_cons, List.mem_singleton, List.not_mem_nil,
         or_false, reduceCtorEq, Event.initiate.injEq] at hm
       first
       | exact absurd hm (h a)
       | (have h1 := h a hm; simp only [Axis.before, Axis.upTo] at h1 ⊢; omega)
       | (rcases hm with hm | hm
          · have h1 := h a hm; simp only [Axis.before, Axis.upTo] at h1 ⊢; omega
          · subst hm; simp [Axis.upTo]))

set_option maxHeartbeats 2000000 in
/-- Every statement keeps `PastCheck c`, and appends no `Initiate` for `c`. -/
theorem step_pastCheck [Zero V] (vel : ℚ → V) (fmt : V → V) (env : Env) (c : Axis) (s : State V)
    (h : PastCheck c s) :
    PastCheck c (step vel fmt env s) ∧
      ∃ es, (step vel fmt env s).trace = s.trace ++ es ∧ Event.initiate c ∉ es := by
  rcases s with ⟨pc, k, portCount, i, iNode, timeout, timeStartMs, t_sec, v, lo, file, tr⟩
  cases pc <;> simp only [step, sdk, State.raise, State.goto, State.axis, PastCheck] at h ⊢ <;>
    (try split_ifs) <;> (try simp only [PastCheck, State.axis, List.append_nil]) <;>
    (refine ⟨?_, ?_⟩) <;>
    first
    | trivial
    | exact h
    | (refine ⟨_, rfl, ?_⟩
       try simp only [Axis.before] at h
       first
       | (simp; done)
       | (simp only [List.mem_cons, List.mem_singleton, List.not_mem_nil, or_false, reduceCtorEq,
            Event.initiate.injEq, not_false_eq_true, or_self]
          rintro rfl; omega))
    | (refine ⟨[], ?_, ?_⟩ <;> (simp; done))
    | (simp only [Axis.before, Axis.upTo] at h ⊢; omega)
    | (intro hc; simp only [Axis.before, Axis.upTo] at h ⊢; omega)
    | (intro hc; exact absurd hc (by decide))

/-- A run that is over stays as it is. -/
theorem step_halted [Zero V] (vel : ℚ → V) (fmt : V → V) (env : Env) (s : State V)
    (h : s.halted = true) : step vel fmt env s = s := by
  rcases s with ⟨pc, k, portCount, i, iNode, timeout, timeStartMs, t_sec, v, lo, file, tr⟩
  cases pc <;> simp [State.halted] at h <;> simp [step]

theorem runFrom_halted [Zero V] (vel : ℚ → V) (fmt : V → V) (env : Env) (s : State V)
    (h : s.halted = true) (n : Nat) : runFrom vel fmt env s n = s := by
  induction n with
  | zero => rfl
  | succ n ih => simp only [runFrom, ih, step_halted vel fmt env s h]

/-- The trace only grows. -/
theorem runFrom_trace [Zero V] (vel : ℚ → V) (fmt : V → V) (env : Env) (s : State V) (n : Nat) :
    ∃ es, (runFrom vel fmt env s n).trace = s.trace ++ es := by
  induction n with
  | zero => exact ⟨[], by simp [runFrom]⟩
  | succ n ih =>
    obtain ⟨es, he⟩ := ih
    obtain ⟨es2, he2, _⟩ := step_trace vel fmt env (runFrom vel fmt env s n)
    exact ⟨es ++ es2, by simp only [runFrom, he2, he, List.append_assoc]⟩

/-- Past the homing check of `c` the run stays past it and records no `Initiate`
for `c`. -/
theorem runFrom_pastCheck [Zero V] (vel : ℚ → V) (fmt : V → V) (env : Env) (c : Axis) (s : State V)
    (h : PastCheck c s) (n : Nat) :
    PastCheck c (runFrom vel fmt env s n) ∧
      ∃ es, (runFrom vel fmt env s n).trace = s.trace ++ es ∧ Event.initiate c ∉ es := by
  induction n with
  | zero => exact ⟨h, [], by simp [runFrom], by simp⟩
  | succ n ih =>
    obtain ⟨hp, es, he, hes⟩ := ih
    obtain ⟨hp2, es2, he2, hes2⟩ := step_pastCheck vel fmt env c _ hp
    refine ⟨hp2, es ++ es2, ?_, ?_⟩
    · simp only [runFrom, he2, he, List.append_assoc]
    · simp only [List.mem_append, not_or]; exact ⟨hes, hes2⟩

theorem run_initiateInv [Zero V] (vel : ℚ → V) (fmt : V → V) (env : Env) (n : Nat) :
    InitiateInv (run vel fmt env n) := by
  refine run_invariant vel fmt env InitiateInv ?_ (step_initiateInv vel fmt env) n
  intro a; simp [init]

/-- The homing check, left operand: `HomingValid` answers. -/
theorem step_homingValid [Zero V] (vel : ℚ → V) (fmt : V → V) (env : Env) (s : State V)
    (h : s.pc = .homingValid) (hf : env.fault s.k = false) :
    step vel fmt env s =
      if env.flag s.k then s.goto .wasHomedCheck [.homingValid s.axis true]
      else s.goto .velUnit [.homingValid s.axis false] := by
  simp [step, h, sdk, hf]

/-- The homing check, right operand: `WasHomed` answers. -/
theorem step_wasHomedCheck [Zero V] (vel : ℚ → V) (fmt : V → V) (env : Env) (s : State V)
    (h : s.pc = .wasHomedCheck) (hf : env.fault s.k = false) :
    step vel fmt env s =
      if env.flag s.k then s.goto .velUnit [.wasHomed s.axis true]
      else s.goto .initiate [.wasHomed s.axis false] := by
  simp [step, h, sdk, hf]

/-- From the configuration of the limits (line 81), with no fault in the seven
statements of lines 81-90, the run reaches the head of the control loop. -/
theorem config_reaches_loop [Zero V] (vel : ℚ → V) (fmt : V → V) (env : Env) (s : State V)
    (h : s.pc = .velUnit) (hf : ∀ d, d < 7 → env.fault (s.k + d) = false) :
    (runFrom vel fmt env s 7).pc = .rosOk ∧ (runFrom vel fmt env s 7).axis = s.axis ∧
    (runFrom vel fmt env s 7).k = s.k + 7 ∧
    (runFrom vel fmt env s 7).logIsOpen = true ∧ (runFrom vel fmt env s 7).file = [.header] ∧
    (runFrom vel fmt env s 7).timeStartMs = env.clock (s.k + 6) ∧
    (runFrom vel fmt env s 7).trace = s.trace ++
      [.velUnit s.axis, .accUnit s.axis, .accLimit s.axis ACC_LIM_RPM_PER_SEC,
       .velLimit s.axis VEL_LIM_RPM, .logOpen, .logWrite .header,
       .timeStampMsec (env.clock (s.k + 6))] := by
  rcases s with ⟨pc, k, portCount, i, iNode, timeout, timeStartMs, t_sec, v, lo, file, tr⟩
  simp only at h hf
  subst h
  have h0 := hf 0 (by omega)
  have h1 := hf 1 (by omega)
  have h2 := hf 2 (by omega)
  have h3 := hf 3 (by omega)
  have h6 := hf 6 (by omega)
  simp only [Nat.add_zero] at h0
  simp [runFrom, step, sdk, State.goto, State.axis, h0, h1, h2, h3, h6, Nat.add_assoc]

/-- A run that returned has returned for good. -/
theorem run_done_mono [Zero V] (vel : ℚ → V) (fmt : V → V) (env : Env) (n m : Nat) (code : Int)
    (h : (run vel fmt env n).pc = .done code) (hnm : n ≤ m) : run vel fmt env m = run vel fmt env n := by
  obtain ⟨d, rfl⟩ := Nat.exists_eq_add_of_le hnm
  rw [← runFrom_run]
  exact runFrom_halted vel fmt env _ (by simp [State.halted, h]) d

/-- The trace of an earlier state is a part of the trace of a later one. -/
theorem run_trace_mono [Zero V] (vel : ℚ → V) (fmt : V → V) (env : Env) (n m : Nat) (hnm : n ≤ m)
    (e : Event V) (h : e ∈ (run vel fmt env n).trace) : e ∈ (run vel fmt env m).trace := by
  obtain ⟨d, rfl⟩ := Nat.exists_eq_add_of_le hnm
  obtain ⟨es, he⟩ := runFrom_trace vel fmt env (run vel fmt env n) d
  rw [← runFrom_run, he]
  exact List.mem_append_left _ h

/-- When the homing check lets homing be skipped, the run is at line 81 one or two
statements later, for the same axis, having recorded no `Initiate`. -/
theorem skip_reaches_config [Zero V] (vel : ℚ → V) (fmt : V → V) (env : Env) (s : State V)
    (h : HomingSkipped env s) :
    ∃ j, (j = 1 ∨ j = 2) ∧ (runFrom vel fmt env s j).pc = .velUnit ∧
      (runFrom vel fmt env s j).axis = s.axis ∧ (runFrom vel fmt env s j).k = s.k + j ∧
      (∃ es, (runFrom vel fmt env s j).trace = s.trace ++ es ∧ Event.initiate s.axis ∉ es) ∧
      ∀ m, m < j → (runFrom vel fmt env s m).halted = false := by
  obtain ⟨hpc, hf, hsk⟩ := h
  rcases hsk with hfl | ⟨hfl, hf1, hfl1⟩
  · refine ⟨1, Or.inl rfl, ?_⟩
    simp only [runFrom, step_homingValid vel fmt env s hpc hf, hfl]
    refine ⟨by simp [State.goto], by simp [State.goto, State.axis], by simp [State.goto],
      ⟨_, rfl, by simp⟩, ?_⟩
    intro m hm
    have : m = 0 := by omega
    subst this
    simp [runFrom, State.halted, hpc]
  · refine ⟨2, Or.inr rfl, ?_⟩
    have e1 : step vel fmt env s = s.goto .wasHomedCheck [.homingValid s.axis true] := by
      rw [step_homingValid vel fmt env s hpc hf]; simp [hfl]
    have e2 : step vel fmt env (s.goto .wasHomedCheck [.homingValid s.axis true])
        = (s.goto .wasHomedCheck [.homingValid s.axis true]).goto .velUnit
            [.wasHomed s.axis true] := by
      rw [step_wasHomedCheck vel fmt env _ rfl (by simpa [State.goto] using hf1)]
      have : env.flag (s.goto PC.wasHomedCheck [Event.homingValid s.axis true]).k = true := by
        simpa [State.goto] using hfl1
      simp [this, hfl1, State.goto, State.axis]
    simp only [runFrom, e1, e2]
    refine ⟨by simp [State.goto], by simp [State.goto, State.axis], by simp [State.goto],
      ⟨[.homingValid s.axis true, .wasHomed s.axis true], by simp [State.goto], by simp⟩, ?_⟩
    intro m hm
    have : m = 0 ∨ m = 1 := by omega
    rcases this with rfl | rfl
    · simp [runFrom, State.halted, hpc]
    · simp [runFrom, e1, State.halted, State.goto]

/-- C5: when at the homing check of an axis HomingValid answers false, or WasHomed
answers true, no run state ever records an Initiate for that axis, the run never
returns -3 for that axis, and one or two statements after the check the run is at
the configuration of the limits (line 81) of the same axis, from where, with no
fault in lines 81-90, it reaches the head of the control loop. -/
theorem homing_skip [Zero V] (vel : ℚ → V) (fmt : V → V) (env : Env) (n : Nat)
    (h : HomingSkipped env (run vel fmt env n)) :
    (∀ m, Event.initiate (run vel fmt env n).axis ∉ (run vel fmt env m).trace) ∧
    (∀ m, (run vel fmt env m).pc = .done (-3) → (run vel fmt env m).axis ≠ (run vel fmt env n).axis) ∧
    ∃ j, (j = 1 ∨ j = 2) ∧ (run vel fmt env (n + j)).pc = .velUnit ∧
      (run vel fmt env (n + j)).axis = (run vel fmt env n).axis ∧
      ((∀ d, d < 7 → env.fault ((run vel fmt env n).k + j + d) = false) →
        (run vel fmt env (n + j + 7)).pc = .rosOk ∧
        (run vel fmt env (n + j + 7)).axis = (run vel fmt env n).axis) := by
  obtain ⟨j, hj, hpc, hax, hk, ⟨es0, he0, hes0⟩, hlive⟩ := skip_reaches_config vel fmt env _ h
  rw [runFrom_run] at hpc hax hk he0
  have hinit := run_initiateInv vel fmt env n
  have hnot : Event.initiate (run vel fmt env n).axis ∉ (run vel fmt env n).trace := by
    intro hm
    simp only [InitiateInv, h.1] at hinit
    have := hinit _ hm
    simp only [Axis.before] at this
    omega
  have hpast : PastCheck (run vel fmt env n).axis (run vel fmt env (n + j)) := by
    simp only [PastCheck, hpc, hax, Axis.upTo]
    exact Or.inr ⟨trivial, le_refl _⟩
  refine ⟨?_, ?_, j, hj, hpc, hax, ?_⟩
  · intro m hm
    rcases Nat.le_total m (n + j) with hle | hle
    · have := run_trace_mono vel fmt env m (n + j) hle _ hm
      rw [he0, List.mem_append] at this
      exact this.elim hnot hes0
    · obtain ⟨d, rfl⟩ := Nat.exists_eq_add_of_le hle
      obtain ⟨_, es, he, hes⟩ := runFrom_pastCheck vel fmt env _ _ hpast d
      rw [runFrom_run] at he
      rw [he, he0, List.mem_append, List.mem_append] at hm
      exact hm.elim (fun h' => h'.elim hnot hes0) hes
  · intro m hm
    rcases Nat.le_total m (n + j) with hle | hle
    · have := run_done_mono vel fmt env m (n + j) _ hm hle
      rw [this, hm] at hpc
      exact absurd hpc (by simp)
    · obtain ⟨d, rfl⟩ := Nat.exists_eq_add_of_le hle
      obtain ⟨hp, _⟩ := runFrom_pastCheck vel fmt env _ _ hpast d
      rw [runFrom_run] at hp
      simp only [PastCheck, hm, Axis.before, forall_const] at hp
      intro heq
      rw [heq] at hp
      omega
  · intro hf
    have := config_reaches_loop vel fmt env (run vel fmt env (n + j)) hpc (by rw [hk]; exact hf)
    rw [runFrom_run] at this
    exact ⟨this.1, this.2.1.trans hax⟩

theorem envOneAxis_skipped : HomingSkipped envOneAxis (run velS sig6 envOneAxis 15) := by
  refine ⟨?_, ?_, Or.inr ⟨?_, ?_, ?_⟩⟩ <;> rfl

theorem homing_skip_witness :
    HomingSkipped envOneAxis (run velS sig6 envOneAxis 15) ∧
      ∀ m, Event.initiate (0, 0) ∉ (run velS sig6 envOneAxis m).trace :=
  ⟨envOneAxis_skipped, (homing_skip velS sig6 envOneAxis 15 envOneAxis_skipped).1⟩

/-! ### The enable wait -/

/-- One round of the enable wait that does not leave it. -/
theorem enable_round [Zero V] (vel : ℚ → V) (fmt : V → V) (env : Env) (s : State V)
    (h : s.pc = .isReady) (hf : env.fault s.k = false) (hr : env.flag s.k = false)
    (hf1 : env.fault (s.k + 1) = false) (ht : ¬ env.clock (s.k + 1) > s.timeout) :
    runFrom vel fmt env s 2 =
      { s with k := s.k + 2
               trace := s.trace ++
                 [Event.isReady s.axis false, Event.timeStampMsec (env.clock (s.k + 1))] } := by
  rcases s with ⟨pc, k, portCount, i, iNode, timeout, timeStartMs, t_sec, v, lo, file, tr⟩
  simp only at h hf hr hf1 ht
  subst h
  simp [runFrom, step, sdk, State.goto, State.axis, hf, hr, hf1, ht]

/-- The enable wait goes `N` rounds when the environment makes it wait. -/
theorem enable_rounds [Zero V] (vel : ℚ → V) (fmt : V → V) (env : Env) (N : Nat) (s : State V)
    (h : s.pc = .isReady) (hw : WaitsFor env s.timeout s.k N) :
    runFrom vel fmt env s (2 * N) =
      { s with k := s.k + 2 * N, trace := s.trace ++ failedPolls env s.axis s.k N } := by
  induction N generalizing s with
  | zero => simp [runFrom, failedPolls]
  | succ N ih =>
    obtain ⟨hf, hr, hf1, ht⟩ := hw 0 (by omega)
    simp only [Nat.mul_zero, Nat.add_zero] at hf hr hf1 ht
    have e : 2 * (N + 1) = 2 + 2 * N := by ring
    have hw2 : WaitsFor env s.timeout (s.k + 2) N := by
      intro j hj
      have := hw (j + 1) (by omega)
      have e2 : s.k + 2 * (j + 1) = s.k + 2 + 2 * j := by ring
      rw [e2] at this
      exact this
    rw [e, ← runFrom_add, enable_round vel fmt env s h hf hr hf1 ht]
    rw [ih { s with k := s.k + 2
                    trace := s.trace ++
                      [Event.isReady s.axis false, Event.timeStampMsec (env.clock (s.k + 1))] }
      h hw2]
    simp [failedPolls, State.axis, Nat.add_assoc]

/-- The rounds of the enable wait record readiness polls and clock readings only. -/
theorem mem_failedPolls (env : Env) (a : Axis) (N k : Nat) (e : Event V)
    (h : e ∈ failedPolls env a k N) : e = Event.isReady a false ∨ ∃ t, e = Event.timeStampMsec t := by
  induction N generalizing k with
  | zero => simp [failedPolls] at h
  | succ N ih =>
    simp only [failedPolls, List.mem_cons] at h
    rcases h with h | h | h
    · exact Or.inl h
    · exact Or.inr ⟨_, h⟩
    · exact ih _ h

/-- Entry to the enable wait (line 59): the deadline is the clock reading plus
`TIME_TILL_TIMEOUT`. -/
theorem step_enableDeadline [Zero V] (vel : ℚ → V) (fmt : V → V) (env : Env) (s : State V)
    (h : s.pc = .enableDeadline) (hf : env.fault s.k = false) :
    step vel fmt env s =
      { s with pc := .isReady, k := s.k + 1, timeout := roundDouble (env.clock s.k + TIME_TILL_TIMEOUT)
               trace := s.trace ++ [Event.timeStampMsec (env.clock s.k)] } := by
  simp [step, h, sdk, hf, State.goto]

/-- Part (a) of the enable wait: after `N` rounds within the deadline a readiness
poll that answers true ends the wait at the homing check. -/
theorem enable_wait_passes [Zero V] (vel : ℚ → V) (fmt : V → V) (env : Env) (s : State V) (N : Nat)
    (h : s.pc = .enableDeadline) (hf : env.fault s.k = false)
    (hw : WaitsFor env (roundDouble (env.clock s.k + TIME_TILL_TIMEOUT)) (s.k + 1) N)
    (hfN : env.fault (s.k + 1 + 2 * N) = false) (hrN : env.flag (s.k + 1 + 2 * N) = true) :
    runFrom vel fmt env s (2 * N + 2) =
      { s with pc := .homingValid, k := s.k + 2 * N + 2
               timeout := roundDouble (env.clock s.k + TIME_TILL_TIMEOUT)
               trace := s.trace ++ Event.timeStampMsec (env.clock s.k) ::
                 (failedPolls env s.axis (s.k + 1) N ++ [Event.isReady s.axis true]) } := by
  have e : 2 * N + 2 = 1 + (2 * N + 1) := by ring
  rw [e, ← runFrom_add]
  simp only [runFrom]
  rw [step_enableDeadline vel fmt env s h hf, enable_rounds vel fmt env N _ rfl hw]
  simp only [Nat.add_assoc] at hfN hrN
  simp [step, sdk, State.goto, State.axis, hfN, hrN, Nat.add_assoc]
  omega

/-- Part (b) of the enable wait, at the first reading above the deadline: after
`N` rounds within the deadline, a failed poll and a clock reading strictly above
the deadline end the run with -2. -/
theorem enable_wait_times_out [Zero V] (vel : ℚ → V) (fmt : V → V) (env : Env) (s : State V) (N : Nat)
    (h : s.pc = .enableDeadline) (hf : env.fault s.k = false)
    (hw : WaitsFor env (roundDouble (env.clock s.k + TIME_TILL_TIMEOUT)) (s.k + 1) N)
    (hfN : env.fault (s.k + 1 + 2 * N) = false) (hrN : env.flag (s.k + 1 + 2 * N) = false)
    (hfT : env.fault (s.k + 2 + 2 * N) = false)
    (hT : env.clock (s.k + 2 + 2 * N) > roundDouble (env.clock s.k + TIME_TILL_TIMEOUT)) :
    runFrom vel fmt env s (2 * N + 3) =
      { s with pc := .done (-2), k := s.k + 2 * N + 3
               timeout := roundDouble (env.clock s.k + TIME_TILL_TIMEOUT)
               trace := s.trace ++ Event.timeStampMsec (env.clock s.k) ::
                 (failedPolls env s.axis (s.k + 1) N ++
                   [Event.isReady s.axis false, Event.timeStampMsec (env.clock (s.k + 2 + 2 * N)),
                    Event.rosError (.failedToEnable s.iNode)]) } := by
  have e : 2 * N + 3 = 1 + (2 * N + 2) := by ring
  rw [e, ← runFrom_add]
  simp only [runFrom]
  rw [step_enableDeadline vel fmt env s h hf, enable_rounds vel fmt env N _ rfl hw]
  have e1 : s.k + (1 + (2 * N + 1)) = s.k + (2 + 2 * N) := by ring
  simp only [Nat.add_assoc] at hfN hrN hfT hT
  simp [step, sdk, State.goto, State.axis, hfN, hrN, hfT, hT, e1, Nat.add_assoc]
  omega

/-- The events from the entry to the enable wait to a timeout hold neither an
enable request nor a velocity command. -/
theorem timeout_events_quiet (env : Env) (a : Axis) (k N iNode : Nat) (t0 t1 : ℚ) (e : Event V)
    (h : e ∈ Event.timeStampMsec t0 :: (failedPolls env a k N ++
      [Event.isReady a false, Event.timeStampMsec t1, Event.rosError (.failedToEnable iNode)])) :
    (∀ b c, e ≠ Event.enableReq b c) ∧ (∀ b v, e ≠ Event.moveVelStart b v) := by
  simp only [List.mem_cons, List.mem_append, List.mem_singleton, List.not_mem_nil,
    or_false] at h
  rcases h with h | h | h | h | h
  · subst h; simp
  · rcases mem_failedPolls env a N k e h with h | ⟨t, h⟩ <;> subst h <;> simp
  · subst h; simp
  · subst h; simp
  · subst h; simp

/-! ### The control loop -/

/-- One control cycle (lines 92-100). -/
theorem loop_cycle [Zero V] (vel : ℚ → V) (fmt : V → V) (env : Env) (s : State V)
    (h : s.pc = .rosOk) (hr : env.flag s.k = true) (hf1 : env.fault (s.k + 1) = false)
    (hf2 : env.fault (s.k + 2) = false) :
    runFrom vel fmt env s 6 =
      { s with k := s.k + 6
               t_sec := cycleTime env s.timeStartMs s.k
               vel := vel (cycleTime env s.timeStartMs s.k)
               file := s.file ++ [.row (sig6 (cycleTime env s.timeStartMs s.k))
                 (fmt (vel (cycleTime env s.timeStartMs s.k)))]
               trace := s.trace ++ cycleEvents vel fmt env s.axis s.timeStartMs s.k } := by
  rcases s with ⟨pc, k, portCount, i, iNode, timeout, timeStartMs, t_sec, v, lo, file, tr⟩
  simp only at h hr hf1 hf2
  subst h
  simp [runFrom, step, sdk, State.goto, State.axis, hr, hf1, hf2, cycleEvents, cycleTime]

/-- What `K` control cycles do to the state. -/
theorem loop_cycles [Zero V] (vel : ℚ → V) (fmt : V → V) (env : Env) (K : Nat) (s : State V)
    (h : s.pc = .rosOk) (hl : LoopRuns env s.k K) :
    (runFrom vel fmt env s (6 * K)).pc = .rosOk ∧
    (runFrom vel fmt env s (6 * K)).k = s.k + 6 * K ∧
    (runFrom vel fmt env s (6 * K)).i = s.i ∧
    (runFrom vel fmt env s (6 * K)).iNode = s.iNode ∧
    (runFrom vel fmt env s (6 * K)).portCount = s.portCount ∧
    (runFrom vel fmt env s (6 * K)).timeStartMs = s.timeStartMs ∧
    (runFrom vel fmt env s (6 * K)).logIsOpen = s.logIsOpen ∧
    (runFrom vel fmt env s (6 * K)).file = s.file ++ cycleRows vel fmt env s.timeStartMs s.k K ∧
    (runFrom vel fmt env s (6 * K)).trace =
      s.trace ++ cyclesEvents vel fmt env s.axis s.timeStartMs s.k K := by
  induction K generalizing s with
  | zero => simp [runFrom, h, cycleRows, cyclesEvents]
  | succ K ih =>
    obtain ⟨hr, hf1, hf2⟩ := hl 0 (by omega)
    simp only [Nat.mul_zero, Nat.add_zero] at hr hf1 hf2
    have hl2 : LoopRuns env (s.k + 6) K := by
      intro j hj
      have := hl (j + 1) (by omega)
      have e2 : s.k + 6 * (j + 1) = s.k + 6 + 6 * j := by ring
      rw [e2] at this
      exact this
    have e : 6 * (K + 1) = 6 + 6 * K := by ring
    rw [e, ← runFrom_add, loop_cycle vel fmt env s h hr hf1 hf2]
    have := ih { s with k := s.k + 6
                        t_sec := cycleTime env s.timeStartMs s.k
                        vel := vel (cycleTime env s.timeStartMs s.k)
                        file := s.file ++ [.row (sig6 (cycleTime env s.timeStartMs s.k))
                          (fmt (vel (cycleTime env s.timeStartMs s.k)))]
                        trace := s.trace ++ cycleEvents vel fmt env s.axis s.timeStartMs s.k }
      h hl2
    obtain ⟨h1, h2, h3, h4, h5, h6, h7, h8, h9⟩ := this
    refine ⟨h1, ?_, h3, h4, h5, h6, h7, ?_, ?_⟩
    · rw [h2]; simp only; omega
    · rw [h8]; simp [cycleRows]
    · rw [h9]; simp [cyclesEvents, State.axis]

/-- The start of a control-loop run (lines 87-90). -/
theorem loop_start [Zero V] (vel : ℚ → V) (fmt : V → V) (env : Env) (s : State V)
    (h : s.pc = .logOpen) (hf : env.fault (s.k + 2) = false) :
    runFrom vel fmt env s 3 =
      { s with pc := .rosOk, k := s.k + 3, logIsOpen := true, file := [.header]
               timeStartMs := env.clock (s.k + 2)
               trace := s.trace ++
                 [Event.logOpen, Event.logWrite .header, Event.timeStampMsec (env.clock (s.k + 2))] } := by
  rcases s with ⟨pc, k, portCount, i, iNode, timeout, timeStartMs, t_sec, v, lo, file, tr⟩
  simp only at h hf
  subst h
  simp [runFrom, step, sdk, State.goto, hf]

/-- The shutdown after the stop signal (lines 92, 104-108). -/
theorem loop_stop [Zero V] (vel : ℚ → V) (fmt : V → V) (env : Env) (s : State V)
    (h : s.pc = .rosOk) (hr : env.flag s.k = false) (hf1 : env.fault (s.k + 1) = false)
    (hf2 : env.fault (s.k + 2) = false) :
    runFrom vel fmt env s 4 =
      { s with pc := .nodeLoop, k := s.k + 4, logIsOpen := false, iNode := s.iNode + 1
               trace := s.trace ++ shutdownEvents s.axis } := by
  rcases s with ⟨pc, k, portCount, i, iNode, timeout, timeStartMs, t_sec, v, lo, file, tr⟩
  simp only at h hr hf1 hf2
  subst h
  simp [runFrom, step, sdk, State.goto, State.axis, hr, hf1, hf2, shutdownEvents]

/-- A whole control-loop run that ends by the stop signal after `K` cycles. -/
theorem loop_run [Zero V] (vel : ℚ → V) (fmt : V → V) (env : Env) (K : Nat) (s : State V)
    (h : s.pc = .logOpen) (hs : StopsAfter env s.k K) :
    (runFrom vel fmt env s (6 * K + 7)).pc = .nodeLoop ∧
    (runFrom vel fmt env s (6 * K + 7)).k = s.k + (6 * K + 7) ∧
    (runFrom vel fmt env s (6 * K + 7)).i = s.i ∧
    (runFrom vel fmt env s (6 * K + 7)).iNode = s.iNode + 1 ∧
    (runFrom vel fmt env s (6 * K + 7)).portCount = s.portCount ∧
    (runFrom vel fmt env s (6 * K + 7)).logIsOpen = false ∧
    (runFrom vel fmt env s (6 * K + 7)).file
      = .header :: cycleRows vel fmt env (env.clock (s.k + 2)) (s.k + 3) K ∧
    (runFrom vel fmt env s (6 * K + 7)).trace =
      s.trace ++ ([Event.logOpen, Event.logWrite .header,
          Event.timeStampMsec (env.clock (s.k + 2))] ++
        cyclesEvents vel fmt env s.axis (env.clock (s.k + 2)) (s.k + 3) K ++
        shutdownEvents s.axis) := by
  obtain ⟨hf, hl, hr, hf1, hf2⟩ := hs
  have e : 6 * K + 7 = 3 + (6 * K + 4) := by ring
  rw [e, ← runFrom_add, ← runFrom_add, loop_start vel fmt env s h hf]
  obtain ⟨h1, h2, h3, h4, h5, h6, h7, h8, h9⟩ := loop_cycles vel fmt env K
    { s with pc := .rosOk, k := s.k + 3, logIsOpen := true, file := [.header]
             timeStartMs := env.clock (s.k + 2)
             trace := s.trace ++
               [Event.logOpen, Event.logWrite .header, Event.timeStampMsec (env.clock (s.k + 2))] }
    rfl hl
  simp only at h2 h3 h4 h5 h6 h7 h8 h9
  rw [loop_stop vel fmt env _ h1 (by rw [h2]; exact hr) (by rw [h2]; exact hf1)
    (by rw [h2]; exact hf2)]
  simp only [h2, h3, h4, h5, h8, h9, State.axis]
  refine ⟨trivial, by omega, trivial, trivial, trivial, trivial, by simp, by simp⟩

theorem envOneAxis_logOpen :
    (run velS sig6 envOneAxis 21).pc = .logOpen ∧ (run velS sig6 envOneAxis 21).k = 21 := by
  constructor <;>
    simp [run, step, init, sdk, State.goto, State.raise, envOneAxis, NET_CONTROLLER_MAX]

theorem envLoopFault_logOpen :
    (run velS sig6 envLoopFault 21).pc = .logOpen ∧ (run velS sig6 envLoopFault 21).k = 21 := by
  constructor <;>
    simp [run, step, init, sdk, State.goto, State.raise, envLoopFault, NET_CONTROLLER_MAX]

/-! ### Log fidelity -/

theorem cycleRows_length (vel : ℚ → V) (fmt : V → V) (env : Env) (t0 : ℚ) (K k : Nat) :
    (cycleRows vel fmt env t0 k K).length = K := by
  induction K generalizing k with
  | zero => rfl
  | succ K ih => simp [cycleRows, ih]

theorem cycleRows_getElem? (vel : ℚ → V) (fmt : V → V) (env : Env) (t0 : ℚ) (K k j : Nat) (hj : j < K) :
    (cycleRows vel fmt env t0 k K)[j]? =
      some (.row (sig6 (cycleTime env t0 (k + 6 * j)))
        (fmt (vel (cycleTime env t0 (k + 6 * j))))) := by
  induction K generalizing k j with
  | zero => omega
  | succ K ih =>
    cases j with
    | zero => simp [cycleRows]
    | succ j =>
      simp only [cycleRows, List.getElem?_cons_succ]
      rw [ih (k + 6) j (by omega)]
      have e : k + 6 + 6 * j = k + 6 * (j + 1) := by ring
      rw [e]

theorem dispatched_append (es fs : List (Event V)) :
    dispatched (es ++ fs) = dispatched es ++ dispatched fs := by
  induction es with
  | nil => rfl
  | cons e es ih => cases e <;> simp [dispatched, ih]

/-- The values sent in the control cycles are the values of line 94. -/
theorem dispatched_cyclesEvents (vel : ℚ → V) (fmt : V → V) (env : Env) (a : Axis) (t0 : ℚ)
    (K k : Nat) :
    dispatched (cyclesEvents vel fmt env a t0 k K) = cycleValues vel env t0 k K := by
  induction K generalizing k with
  | zero => rfl
  | succ K ih =>
    simp [cyclesEvents, cycleEvents, cycleValues, dispatched, ih]

/-- The velocity column of the rows holds the renderings of the values sent. -/
theorem rowValues_cycleRows (vel : ℚ → V) (fmt : V → V) (env : Env) (t0 : ℚ) (K k : Nat) :
    rowValues (cycleRows vel fmt env t0 k K) = (cycleValues vel env t0 k K).map fmt := by
  induction K generalizing k with
  | zero => rfl
  | succ K ih =>
    simp [cycleRows, cycleValues, rowValues, ih]

theorem cycleValues_length (vel : ℚ → V) (env : Env) (t0 : ℚ) (K k : Nat) :
    (cycleValues vel env t0 k K).length = K := by
  induction K generalizing k with
  | zero => rfl
  | succ K ih => simp [cycleValues, ih]

theorem cycleValues_getElem? (vel : ℚ → V) (env : Env) (t0 : ℚ) (K k j : Nat) (hj : j < K) :
    (cycleValues vel env t0 k K)[j]? = some (vel (cycleTime env t0 (k + 6 * j))) := by
  induction K generalizing k j with
  | zero => omega
  | succ K ih =>
    cases j with
    | zero => simp [cycleValues]
    | succ j =>
      simp only [cycleValues, List.getElem?_cons_succ]
      rw [ih (k + 6) j (by omega)]
      have e : k + 6 + 6 * j = k + 6 * (j + 1) := by ring
      rw [e]

/-- Log fidelity for any evaluation `vel` of line 94 and any rendering `fmt`: a
control-loop run of `K` cycles leaves the header and `K` rows in the log, row `j`
holding the renderings of the `t_sec` of cycle `j` and of the value `vel t_sec`
sent in cycle `j`; the values sent are these `K` values followed by the 0 of the
shutdown. -/
theorem log_rows [Zero V] (vel : ℚ → V) (fmt : V → V) (env : Env) (K : Nat) (s : State V)
    (h : s.pc = .logOpen) (hs : StopsAfter env s.k K) :
    ∃ rows es, (runFrom vel fmt env s (6 * K + 7)).file = .header :: rows ∧
      (runFrom vel fmt env s (6 * K + 7)).trace = s.trace ++ es ∧
      rows.length = K ∧
      (∀ j, j < K → rows[j]? =
        some (.row (sig6 (cycleTime env (env.clock (s.k + 2)) (s.k + 3 + 6 * j)))
          (fmt (vel (cycleTime env (env.clock (s.k + 2)) (s.k + 3 + 6 * j)))))) ∧
      (∀ j, j < K → (dispatched es)[j]? =
        some (vel (cycleTime env (env.clock (s.k + 2)) (s.k + 3 + 6 * j)))) ∧
      rowValues rows = (cycleValues vel env (env.clock (s.k + 2)) (s.k + 3) K).map fmt ∧
      dispatched es = cycleValues vel env (env.clock (s.k + 2)) (s.k + 3) K ++ [0] := by
  obtain ⟨_, _, _, _, _, _, h7, h8⟩ := loop_run vel fmt env K s h hs
  have hd : dispatched ([Event.logOpen, Event.logWrite .header,
        Event.timeStampMsec (env.clock (s.k + 2))] ++
        cyclesEvents vel fmt env s.axis (env.clock (s.k + 2)) (s.k + 3) K ++
        shutdownEvents s.axis) =
      cycleValues vel env (env.clock (s.k + 2)) (s.k + 3) K ++ [0] := by
    simp [dispatched_append, dispatched_cyclesEvents, dispatched, shutdownEvents]
  refine ⟨_, _, h7, h8, cycleRows_length _ _ _ _ _ _,
    fun j hj => cycleRows_getElem? _ _ _ _ _ _ j hj, ?_, rowValues_cycleRows _ _ _ _ _ _, hd⟩
  intro j hj
  rw [hd, List.getElem?_append_left (by rw [cycleValues_length]; exact hj)]
  exact cycleValues_getElem? _ _ _ _ _ j hj

/-! ### Axes processed after the stop signal -/

theorem lastEnableTrue_append {a : Axis} {tr es : List (Event V)} (h : LastEnableTrue a tr)
    (hes : ∀ b c, Event.enableReq b c ∉ es) : LastEnableTrue a (tr ++ es) := by
  obtain ⟨p, q, hp, hq⟩ := h
  refine ⟨p, q ++ es, by rw [hp]; simp, ?_⟩
  intro b c hm
  rcases List.mem_append.mp hm with hm | hm
  · exact hq b c hm
  · exact hes b c hm

theorem lastEnableTrue_new (a : Axis) (tr : List (Event V)) :
    LastEnableTrue a (tr ++ [Event.enableReq a true]) :=
  ⟨tr, [], rfl, by simp⟩

theorem homingPending_append {a : Axis} {tr es : List (Event V)} (h : HomingPending a tr)
    (hes : ∀ e, e ∈ es → e = Event.wasHomed a false ∨ (∃ t, e = Event.timeStampMsec t) ∨
      ∃ m, e = Event.rosError m) : HomingPending a (tr ++ es) := by
  obtain ⟨p, q, hp, hq⟩ := h
  refine ⟨p, q ++ es, by rw [hp]; simp, ?_⟩
  intro e hm
  rcases List.mem_append.mp hm with hm | hm
  · exact hq e hm
  · exact hes e hm

theorem homingPending_new (a : Axis) (tr : List (Event V)) :
    HomingPending a (tr ++ [Event.initiate a]) :=
  ⟨tr, [], rfl, by simp⟩

set_option maxHeartbeats 4000000 in
/-- Every statement keeps `TeardownInv`. -/
theorem step_teardownInv [Zero V] (vel : ℚ → V) (fmt : V → V) (env : Env) (s : State V)
    (h : TeardownInv s) : TeardownInv (step vel fmt env s) := by
  obtain ⟨h1, h2, h3, h4, h5⟩ := h
  rcases s with ⟨pc, k, portCount, i, iNode, timeout, timeStartMs, t_sec, v, lo, file, tr⟩
  refine ⟨?_, ?_, ?_, ?_, ?_⟩
  · cases pc <;>
      simp only [step, sdk, State.raise, State.goto, State.axis, PC.inEnableWait,
        PC.inHomingWait] at h1 ⊢ <;>
      (try split_ifs) <;> (try simp only [PC.inEnableWait, PC.inHomingWait, State.axis]) <;>
      first
      | exact h1
      | (intro hc; simp at hc; done)
      | (intro _; exact lastEnableTrue_new _ _)
      | (intro _; refine lastEnableTrue_append (h1 (by simp)) ?_; simp; done)
      | skip
  · cases pc <;>
      simp only [step, sdk, State.raise, State.goto, State.axis, PC.inHomingWait] at h2 ⊢ <;>
      (try split_ifs) <;> (try simp only [PC.inHomingWait, State.axis]) <;>
      first
      | exact h2
      | (intro hc; simp at hc; done)
      | (intro _; exact homingPending_new _ _)
      | (intro _; refine homingPending_append (h2 (by simp)) ?_; simp; done)
      | skip
  · cases pc <;>
      simp only [step, sdk, State.raise, State.goto] at h3 ⊢ <;>
      (try split_ifs) <;>
      first
      | exact h3
      | (intro hc; simp at hc; done)
      | (intro _; exact ⟨_, _, rfl, by assumption⟩)
      | skip
  · cases pc <;>
      simp only [step, sdk, State.raise, State.goto] at h4 ⊢ <;>
      (try split_ifs) <;>
      first
      | exact h4
      | (intro hc; simp at hc; done)
      | (intro _; exact ⟨_, _, rfl, by assumption⟩)
      | skip
  · cases pc <;>
      simp only [step, sdk, State.raise, State.goto, PC.closedPorts] at h5 ⊢ <;>
      (try split_ifs) <;> (try simp only [PC.closedPorts]) <;>
      first
      | exact h5
      | (simp_all; done)
      | skip

theorem run_teardownInv [Zero V] (vel : ℚ → V) (fmt : V → V) (env : Env) (n : Nat) :
    TeardownInv (run vel fmt env n) := by
  refine run_invariant vel fmt env TeardownInv ?_ (step_teardownInv vel fmt env) n
  refine ⟨?_, ?_, ?_, ?_, ?_⟩ <;> simp [init, PC.inEnableWait, PC.inHomingWait, PC.closedPorts]

/-- C9: when the enable wait or the homing wait times out the program returns at
once: the trace ends with the clock reading above the deadline and the error
report, so nothing is sent after the timeout, and no later state differs; the
trace holds no PortsClose and its last enable request is EnableReq(true) for the
timed-out axis; on a homing timeout homing was initiated for that axis and only
WasHomed polls, clock readings and the report follow; of the failing exits, the
one of the hardware fault (-4) has closed the ports. -/
theorem timeout_returns_without_teardown [Zero V] (vel : ℚ → V) (fmt : V → V) (env : Env) (n : Nat) :
    ((run vel fmt env n).exitCode = some (-2) ∨ (run vel fmt env n).exitCode = some (-3) →
      (∃ pre t m, (run vel fmt env n).trace = pre ++ [Event.timeStampMsec t, Event.rosError m] ∧
        t > (run vel fmt env n).timeout) ∧
      (∀ m, n ≤ m → run vel fmt env m = run vel fmt env n) ∧
      LastEnableTrue (run vel fmt env n).axis (run vel fmt env n).trace ∧
      Event.portsClose ∉ (run vel fmt env n).trace) ∧
    ((run vel fmt env n).exitCode = some (-3) →
      HomingPending (run vel fmt env n).axis (run vel fmt env n).trace) ∧
    ((run vel fmt env n).exitCode = some (-1) → Event.portsClose ∉ (run vel fmt env n).trace) ∧
    ((run vel fmt env n).exitCode = some (-4) → Event.portsClose ∈ (run vel fmt env n).trace) := by
  obtain ⟨h1, h2, h3, h4, h5⟩ := run_teardownInv vel fmt env n
  generalize hs : run vel fmt env n = s at h1 h2 h3 h4 h5
  have hcode : ∀ c, s.exitCode = some c → s.pc = .done c := by
    intro c hc
    rcases s with ⟨pc, k, portCount, i, iNode, timeout, timeStartMs, t_sec, v, lo, file, tr⟩
    cases pc <;> simp [State.exitCode] at hc
    simp [hc]
  refine ⟨?_, ?_, ?_, ?_⟩
  · intro hc
    have hmono : ∀ m, n ≤ m → run vel fmt env m = s := by
      intro m hm
      rcases hc with hc | hc <;>
        (rw [← hs]; exact run_done_mono vel fmt env n m _ (by rw [hs]; exact hcode _ hc) hm)
    rcases hc with hc | hc
    · have hpc := hcode _ hc
      obtain ⟨pre, t, e1, e2⟩ := h3 hpc
      refine ⟨⟨pre, t, _, e1, e2⟩, hmono, h1 (Or.inl (by simp [hpc, PC.inEnableWait])), ?_⟩
      rw [h5]; simp [hpc, PC.closedPorts]
    · have hpc := hcode _ hc
      obtain ⟨pre, t, e1, e2⟩ := h4 hpc
      refine ⟨⟨pre, t, _, e1, e2⟩, hmono, h1 (Or.inr (by simp [hpc, PC.inHomingWait])), ?_⟩
      rw [h5]; simp [hpc, PC.closedPorts]
  · intro hc
    exact h2 (by simp [hcode _ hc, PC.inHomingWait])
  · intro hc
    rw [h5]; simp [hcode _ hc, PC.closedPorts]
  · intro hc
    rw [h5]; simp [hcode _ hc, PC.closedPorts]

theorem envNeverReady_entry :
    (run velS sig6 envNeverReady 13).pc = .enableDeadline ∧
      (run velS sig6 envNeverReady 13).k = 13 := by
  constructor <;>
    simp [run, step, init, sdk, State.goto, State.raise, envNeverReady, NET_CONTROLLER_MAX]

theorem envNeverReady_times_out : (run velS sig6 envNeverReady 26).exitCode = some (-2) := by
  have h23 : roundDouble (envNeverReady.clock 13 + TIME_TILL_TIMEOUT) = 23000 := by
    have e : envNeverReady.clock 13 + TIME_TILL_TIMEOUT = 23000 := by
      norm_num [envNeverReady, TIME_TILL_TIMEOUT]
    have := roundTo_near 2 (by norm_num) 52 23000 14 (23000 * 2 ^ 38) (by norm_num)
      (by norm_num) (by norm_num)
    rw [e]; unfold roundDouble
    rw [this]; norm_num
  have hw : WaitsFor envNeverReady
      (roundDouble (envNeverReady.clock (run velS sig6 envNeverReady 13).k + TIME_TILL_TIMEOUT))
      ((run velS sig6 envNeverReady 13).k + 1) 5 := by
    rw [envNeverReady_entry.2, h23]
    intro j hj
    refine ⟨rfl, rfl, rfl, ?_⟩
    simp only [envNeverReady, gt_iff_lt, not_lt]
    have : ((13 + 1 + 2 * j + 1 : ℕ) : ℚ) ≤ 23 := by
      have : 13 + 1 + 2 * j + 1 ≤ 23 := by omega
      exact_mod_cast this
    push_cast at this ⊢
    linarith
  have h := enable_wait_times_out velS sig6 envNeverReady (run velS sig6 envNeverReady 13) 5
    envNeverReady_entry.1 rfl hw rfl rfl rfl (by
      rw [envNeverReady_entry.2, h23]
      norm_num [envNeverReady])
  rw [runFrom_run] at h
  have e : 13 + (2 * 5 + 3) = 26 := by norm_num
  rw [e] at h
  rw [h]
  rfl

theorem timeout_returns_without_teardown_witness :
    LastEnableTrue (run velS sig6 envNeverReady 26).axis (run velS sig6 envNeverReady 26).trace ∧
      Event.portsClose ∉ (run velS sig6 envNeverReady 26).trace :=
  have h := (timeout_returns_without_teardown velS sig6 envNeverReady 26).1
    (Or.inl envNeverReady_times_out)
  ⟨h.2.2.1, h.2.2.2⟩

/-! ### Exit codes -/

/-- A run that is over stays as it is. -/
theorem run_halted_mono [Zero V] (vel : ℚ → V) (fmt : V → V) (env : Env) (n m : Nat)
    (h : (run vel fmt env n).halted = true) (hnm : n ≤ m) : run vel fmt env m = run vel fmt env n := by
  obtain ⟨d, rfl⟩ := Nat.exists_eq_add_of_le hnm
  rw [← runFrom_run]
  exact runFrom_halted vel fmt env _ h d

theorem envOneAxis_returns : (run velS sig6 envOneAxis 49).exitCode = some 0 := by
  simp [run, step, init, sdk, State.goto, State.raise, envOneAxis, NET_CONTROLLER_MAX,
    State.exitCode]

theorem exitCode_eq_some (s : State V) (c : Int) : s.exitCode = some c ↔ s.pc = .done c := by
  rcases s with ⟨pc, k, portCount, i, iNode, timeout, timeStartMs, t_sec, v, lo, file, tr⟩
  cases pc <;> simp [State.exitCode]

/-- C4, amended: with the deadline set at the entry to the enable wait (line 59) to
the `double` nearest to the clock reading plus 10000 ms, (a) if the readiness poll
answers true after N failed polls and none of the N clock readings in between is
strictly above the deadline, the run is at the homing check right after that poll;
(b) if the readiness poll never answers true, no call throws and some clock reading
of the wait is strictly above the deadline, then at the first such reading the run
returns -2, and from the entry to the wait on it records no enable request and no
velocity command. -/
theorem enable_wait [Zero V] (vel : ℚ → V) (fmt : V → V) (env : Env) (n : Nat)
    (hpc : (run vel fmt env n).pc = .enableDeadline)
    (hf : env.fault (run vel fmt env n).k = false) :
    (∀ N, WaitsFor env (roundDouble (env.clock (run vel fmt env n).k + TIME_TILL_TIMEOUT))
          ((run vel fmt env n).k + 1) N →
        env.fault ((run vel fmt env n).k + 1 + 2 * N) = false →
        env.flag ((run vel fmt env n).k + 1 + 2 * N) = true →
        (run vel fmt env (n + (2 * N + 2))).pc = .homingValid ∧
        (run vel fmt env (n + (2 * N + 2))).axis = (run vel fmt env n).axis ∧
        (run vel fmt env (n + (2 * N + 2))).trace = (run vel fmt env n).trace ++
          Event.timeStampMsec (env.clock (run vel fmt env n).k) ::
            (failedPolls env (run vel fmt env n).axis ((run vel fmt env n).k + 1) N ++
              [Event.isReady (run vel fmt env n).axis true])) ∧
    ((∀ j, env.fault ((run vel fmt env n).k + 1 + j) = false) →
      (∀ j, env.flag ((run vel fmt env n).k + 1 + 2 * j) = false) →
      (∃ j, env.clock ((run vel fmt env n).k + 2 + 2 * j) >
        roundDouble (env.clock (run vel fmt env n).k + TIME_TILL_TIMEOUT)) →
      ∃ N, env.clock ((run vel fmt env n).k + 2 + 2 * N) >
          roundDouble (env.clock (run vel fmt env n).k + TIME_TILL_TIMEOUT) ∧
        (∀ j, j < N → ¬ env.clock ((run vel fmt env n).k + 2 + 2 * j) >
          roundDouble (env.clock (run vel fmt env n).k + TIME_TILL_TIMEOUT)) ∧
        (∀ m, m < n + (2 * N + 3) → (run vel fmt env m).exitCode = none) ∧
        (∀ m, n + (2 * N + 3) ≤ m →
          (run vel fmt env m).exitCode = some (-2) ∧
          (run vel fmt env m).trace = (run vel fmt env n).trace ++
            Event.timeStampMsec (env.clock (run vel fmt env n).k) ::
              (failedPolls env (run vel fmt env n).axis ((run vel fmt env n).k + 1) N ++
                [Event.isReady (run vel fmt env n).axis false,
                 Event.timeStampMsec (env.clock ((run vel fmt env n).k + 2 + 2 * N)),
                 Event.rosError (.failedToEnable (run vel fmt env n).iNode)])) ∧
        (∀ m es, (run vel fmt env (n + m)).trace = (run vel fmt env n).trace ++ es →
          ∀ e, e ∈ es → (∀ a b, e ≠ Event.enableReq a b) ∧ (∀ a v, e ≠ Event.moveVelStart a v))) := by
  constructor
  · intro N hw hfN hrN
    have := enable_wait_passes vel fmt env (run vel fmt env n) N hpc hf hw hfN hrN
    rw [runFrom_run] at this
    rw [this]
    exact ⟨rfl, rfl, rfl⟩
  · intro hnf hnr hex
    refine ⟨Nat.find hex, Nat.find_spec hex, fun j hj => Nat.find_min hex hj, ?_⟩
    have hw : WaitsFor env (roundDouble (env.clock (run vel fmt env n).k + TIME_TILL_TIMEOUT))
        ((run vel fmt env n).k + 1) (Nat.find hex) := by
      intro j hj
      have e1 : (run vel fmt env n).k + 1 + 2 * j + 1 = (run vel fmt env n).k + 2 + 2 * j := by ring
      have e2 : (run vel fmt env n).k + 1 + 2 * j + 1 = (run vel fmt env n).k + 1 + (2 * j + 1) := by ring
      refine ⟨hnf _, hnr j, ?_, ?_⟩
      · rw [e2]; exact hnf _
      · rw [e1]; exact Nat.find_min hex hj
    have e3 : (run vel fmt env n).k + 2 + 2 * Nat.find hex
        = (run vel fmt env n).k + 1 + (2 * Nat.find hex + 1) := by ring
    have hfin := enable_wait_times_out vel fmt env (run vel fmt env n) (Nat.find hex) hpc hf hw
      (hnf _) (hnr _) (by rw [e3]; exact hnf _) (Nat.find_spec hex)
    rw [runFrom_run] at hfin
    have hdone : (run vel fmt env (n + (2 * Nat.find hex + 3))).pc = .done (-2) := by rw [hfin]
    have hlast : (run vel fmt env (n + (2 * Nat.find hex + 2))).pc = .enableCheck := by
      have e : 2 * Nat.find hex + 2 = 1 + (2 * Nat.find hex + 1) := by ring
      rw [← runFrom_run, e, ← runFrom_add]
      simp only [runFrom]
      rw [step_enableDeadline vel fmt env _ hpc hf, enable_rounds vel fmt env _ _ rfl hw]
      have h1 := hnf (2 * Nat.find hex)
      have h2 := hnr (Nat.find hex)
      simp only [Nat.add_assoc] at h1 h2
      simp [step, sdk, State.goto, h1, h2, Nat.add_assoc]
    refine ⟨?_, ?_, ?_⟩
    · intro m hm
      cases hc : (run vel fmt env m).exitCode with
      | none => rfl
      | some c =>
        rw [exitCode_eq_some] at hc
        have := run_halted_mono vel fmt env m (n + (2 * Nat.find hex + 2))
          (by simp [State.halted, hc]) (by omega)
        rw [this, hc] at hlast
        exact absurd hlast (by simp)
    · intro m hm
      rw [run_done_mono vel fmt env _ m _ hdone hm, hfin]
      exact ⟨rfl, rfl⟩
    · intro m es hes e he
      apply timeout_events_quiet env (run vel fmt env n).axis ((run vel fmt env n).k + 1) (Nat.find hex)
        (run vel fmt env n).iNode (env.clock (run vel fmt env n).k)
        (env.clock ((run vel fmt env n).k + 2 + 2 * Nat.find hex)) e
      rcases Nat.le_total (n + m) (n + (2 * Nat.find hex + 3)) with hle | hle
      · obtain ⟨d, hd⟩ := Nat.exists_eq_add_of_le hle
        obtain ⟨es2, he2⟩ := runFrom_trace vel fmt env (run vel fmt env (n + m)) d
        rw [runFrom_run, ← hd, hfin, hes] at he2
        simp only [List.append_assoc, List.append_cancel_left_eq] at he2
        rw [he2]
        exact List.mem_append_left _ he
      · rw [run_done_mono vel fmt env _ _ _ hdone hle, hfin] at hes
        simp only [List.append_cancel_left_eq] at hes
        rw [hes]
        exact he

theorem roundTo_near_pos (b : ℕ) (hb : 1 < b) (p : ℤ) (x : ℚ) (e n : ℤ)
    (h1 : (b : ℚ) ^ e ≤ x) (h2 : x < (b : ℚ) ^ (e + 1))
    (hn : |x / (b : ℚ) ^ (e - p) - n| < 1 / 2) :
    roundTo b p x = (n : ℚ) * (b : ℚ) ^ (e - p) := by
  have hx : 0 < x :=
    lt_of_lt_of_le (zpow_pos (by exact_mod_cast (by omega : 0 < b)) e) h1
  exact roundTo_near b hb p x e n (by rwa [abs_of_pos hx]) (by rwa [abs_of_pos hx]) hn

theorem roundDouble_23000 : roundDouble 23000 = 23000 := by
  have := roundTo_near 2 (by norm_num) 52 23000 14 (23000 * 2 ^ 38) (by norm_num)
    (by norm_num) (by norm_num)
  unfold roundDouble
  rw [this]; norm_num

theorem envSlowReady_entry :
    (run velS sig6 envSlowReady 13).pc = .enableDeadline ∧
      (run velS sig6 envSlowReady 13).k = 13 := by
  constructor <;>
    simp [run, step, init, sdk, State.goto, State.raise, envSlowReady, NET_CONTROLLER_MAX]

theorem envSlowReady_waits :
    WaitsFor envSlowReady
      (roundDouble (envSlowReady.clock (run velS sig6 envSlowReady 13).k + TIME_TILL_TIMEOUT))
      ((run velS sig6 envSlowReady 13).k + 1) 2 := by
  have e : envSlowReady.clock 13 + TIME_TILL_TIMEOUT = 23000 := by
    norm_num [envSlowReady, TIME_TILL_TIMEOUT]
  rw [envSlowReady_entry.2, e, roundDouble_23000]
  intro j hj
  refine ⟨rfl, ?_, rfl, ?_⟩
  · simp only [envSlowReady, decide_eq_false_iff_not, not_le]
    omega
  · simp only [envSlowReady, gt_iff_lt, not_lt]
    have : ((14 + 2 * j + 1 : ℕ) : ℚ) ≤ 23 := by
      have : 14 + 2 * j + 1 ≤ 23 := by omega
      exact_mod_cast this
    push_cast at this ⊢
    linarith

theorem envNeverReady_late :
    ∃ j, envNeverReady.clock ((run velS sig6 envNeverReady 13).k + 2 + 2 * j) >
      roundDouble (envNeverReady.clock (run velS sig6 envNeverReady 13).k + TIME_TILL_TIMEOUT) := by
  have e : envNeverReady.clock 13 + TIME_TILL_TIMEOUT = 23000 := by
    norm_num [envNeverReady, TIME_TILL_TIMEOUT]
  rw [envNeverReady_entry.2, e, roundDouble_23000]
  exact ⟨5, by norm_num [envNeverReady]⟩

theorem enable_wait_witness :
    (envSlowReady.flag 14 = false ∧ envSlowReady.flag 16 = false ∧
      envSlowReady.flag 18 = true) ∧
    (run velS sig6 envSlowReady (13 + (2 * 2 + 2))).pc = .homingValid ∧
    ∃ N, ∀ m, 13 + (2 * N + 3) ≤ m → (run velS sig6 envNeverReady m).exitCode = some (-2) :=
  ⟨⟨rfl, rfl, rfl⟩,
    ((enable_wait velS sig6 envSlowReady 13 envSlowReady_entry.1 rfl).1 2 envSlowReady_waits rfl
      (by rw [envSlowReady_entry.2]; rfl)).1,
    by
      obtain ⟨N, _, _, _, h, _⟩ := (enable_wait velS sig6 envNeverReady 13
        envNeverReady_entry.1 rfl).2 (fun _ => rfl) (fun _ => rfl) envNeverReady_late
      exact ⟨N, fun m hm => (h m hm).1⟩⟩

theorem envPinned_entry :
    (run velS sig6 envPinned 13).pc = .enableDeadline ∧
      (run velS sig6 envPinned 13).k = 13 := by
  constructor <;>
    simp [run, step, init, sdk, State.goto, State.raise, envPinned, NET_CONTROLLER_MAX]

/-- The sum of line 59 at the entry reading 0.1: the `double` nearest to it is
the `double` nearest to 10000.1. -/
theorem envPinned_deadline :
    roundDouble (envPinned.clock 13 + TIME_TILL_TIMEOUT) = 5497613114461389 / 2 ^ 39 := by
  have e : envPinned.clock 13 + TIME_TILL_TIMEOUT = 3602879701896397 / 2 ^ 55 + 10000 := by
    simp [envPinned, TIME_TILL_TIMEOUT]
  have := roundTo_near_pos 2 (by norm_num) 52 (3602879701896397 / 2 ^ 55 + 10000) 13
    5497613114461389 (by norm_num) (by norm_num) (by norm_num [abs_lt])
  rw [e]; unfold roundDouble
  rw [this]; norm_num

/-- Against `envPinned` the enable wait polls for ever. -/
theorem envPinned_polls (N : Nat) : (run velS sig6 envPinned (13 + (1 + 2 * N))).pc = .isReady := by
  rw [← runFrom_run, ← runFrom_add]
  simp only [runFrom]
  rw [step_enableDeadline velS sig6 envPinned _ envPinned_entry.1 rfl,
    enable_rounds velS sig6 envPinned N _ rfl]
  intro j hj
  refine ⟨rfl, rfl, rfl, ?_⟩
  simp only [envPinned_entry.2, envPinned_deadline]
  have : ¬ (13 + 1 + 2 * j + 1 ≤ 13) := by omega
  simp [envPinned, this]

/-- C4, as stated, fails: against `envPinned` the readiness poll never answers
true, no call throws, the clock is non-decreasing and reads `double`s, and the
first reading of the wait is strictly above the entry reading plus 10000 ms; but the
sum of line 59 rounds to that very reading, no reading is strictly above the
deadline of the program, and the run polls for ever instead of returning -2. -/
theorem enable_wait_exact_deadline_fails :
    (run velS sig6 envPinned 13).pc = .enableDeadline ∧
    (run velS sig6 envPinned 13).k = 13 ∧
    (∀ k, envPinned.fault k = false) ∧ (∀ k, envPinned.flag k = false) ∧
    (∀ j k, j ≤ k → envPinned.clock j ≤ envPinned.clock k) ∧
    (∀ k, roundDouble (envPinned.clock k) = envPinned.clock k) ∧
    envPinned.clock 15 > envPinned.clock 13 + TIME_TILL_TIMEOUT ∧
    (∀ N, (run velS sig6 envPinned (14 + 2 * N)).pc = .isReady) ∧
    (∀ n, (run velS sig6 envPinned n).halted = false) ∧
    ∀ n, (run velS sig6 envPinned n).exitCode = none := by
  have hlive : ∀ n, (run velS sig6 envPinned n).halted = false := by
    intro n
    by_contra hc
    simp only [Bool.not_eq_false] at hc
    have h := envPinned_polls n
    rw [run_halted_mono velS sig6 envPinned n _ hc (by omega)] at h
    simp [State.halted, h] at hc
  refine ⟨envPinned_entry.1, envPinned_entry.2, fun _ => rfl, fun _ => rfl, ?_, ?_, ?_, ?_,
    hlive, ?_⟩
  · intro j k hjk
    simp only [envPinned]
    split_ifs with h1 h2 h2
    · exact le_refl _
    · norm_num
    · omega
    · exact le_refl _
  · intro k
    simp only [envPinned]
    split_ifs
    · have := roundTo_near_pos 2 (by norm_num) 52 (3602879701896397 / 2 ^ 55) (-4)
        7205759403792794 (by norm_num) (by norm_num) (by norm_num [abs_lt])
      unfold roundDouble
      rw [this]; norm_num
    · have := roundTo_near_pos 2 (by norm_num) 52 (5497613114461389 / 2 ^ 39) 13
        5497613114461389 (by norm_num) (by norm_num) (by norm_num [abs_lt])
      unfold roundDouble
      rw [this]; norm_num
  · norm_num [envPinned, TIME_TILL_TIMEOUT]
  · intro N
    have e : 14 + 2 * N = 13 + (1 + 2 * N) := by ring
    rw [e]
    exact envPinned_polls N
  · intro n
    have h := hlive n
    generalize run velS sig6 envPinned n = s at h
    rcases s with ⟨pc, k, portCount, i, iNode, timeout, timeStartMs, t_sec, v, lo, file, tr⟩
    cases pc <;> simp [State.halted] at h <;> rfl

/-! ### Shutdown on the fault path -/

theorem envOneAxis_stops : StopsAfter envOneAxis (run velS sig6 envOneAxis 21).k 1 := by
  rw [envOneAxis_logOpen.2]
  refine ⟨rfl, ?_, rfl, rfl, rfl⟩
  intro j hj
  have : j = 0 := by omega
  subst this
  exact ⟨rfl, rfl, rfl⟩

/-- C3: the code breaks the shutdown guarantee on the fault path.  Against
`envLoopFault`, where the first `MoveVelStart` of the control loop throws, the run
returns -4, and the events of the control-loop run, from the opening of the log on,
hold one log close (by the destructor of the stream) but no zero-velocity command
and no disable request, so neither "exactly one" holds.  Against `envOneAxis`, the
same environment without the fault, the control-loop run ends with the shutdown of
lines 104-107: the zero command, the disable request and the closing of the log. -/
theorem fault_run_without_shutdown :
    (run velS sig6 envLoopFault 21).pc = .logOpen ∧
    (run velS sig6 envLoopFault 26).pc = .moveVel ∧
    Throws envLoopFault (run velS sig6 envLoopFault 26) ∧
    (run velS sig6 envLoopFault 28).exitCode = some (-4) ∧
    (run velS sig6 envLoopFault 28).trace = (run velS sig6 envLoopFault 21).trace ++
      [Event.logOpen, Event.logWrite .header, Event.timeStampMsec 0, Event.rosOk true,
       Event.timeStampMsec 0, Event.mnErr, Event.logClose, Event.rosError .teknicError,
       Event.portsClose] ∧
    (∀ n, (run velS sig6 envLoopFault n).trace <+: (run velS sig6 envLoopFault 28).trace) ∧
    ¬ ExactlyOne IsZeroCommand
      ([Event.logOpen, Event.logWrite .header, Event.timeStampMsec 0, Event.rosOk true,
        Event.timeStampMsec 0, Event.mnErr, Event.logClose, Event.rosError .teknicError,
        Event.portsClose] : List (Event ℚ)) ∧
    ¬ ExactlyOne IsDisable
      ([Event.logOpen, Event.logWrite .header, Event.timeStampMsec 0, Event.rosOk true,
        Event.timeStampMsec 0, Event.mnErr, Event.logClose, Event.rosError .teknicError,
        Event.portsClose] : List (Event ℚ)) ∧
    (run velS sig6 envOneAxis 21).pc = .logOpen ∧
    (run velS sig6 envOneAxis (21 + (6 * 1 + 7))).trace = (run velS sig6 envOneAxis 21).trace ++
      ([Event.logOpen, Event.logWrite .header, Event.timeStampMsec 0] ++
        cyclesEvents velS sig6 envOneAxis (0, 0) 0 24 1 ++
        [Event.rosOk false, Event.moveVelStart (0, 0) 0, Event.enableReq (0, 0) false,
         Event.logClose, Event.rosInfo (.stopped 0)]) := by
  have h28 : (run velS sig6 envLoopFault 28).pc = .done (-4) := by
    simp [run, step, init, sdk, State.goto, State.raise, envLoopFault, NET_CONTROLLER_MAX]
  refine ⟨envLoopFault_logOpen.1, ?_, ?_, ?_, ?_, ?_, ?_, ?_, envOneAxis_logOpen.1, ?_⟩
  · simp [run, step, init, sdk, State.goto, State.raise, envLoopFault, NET_CONTROLLER_MAX]
  · constructor <;>
      simp [run, step, init, sdk, State.goto, State.raise, envLoopFault, NET_CONTROLLER_MAX,
        State.atSdkCall]
  · rw [exitCode_eq_some]; exact h28
  · simp [run, step, init, sdk, State.goto, State.raise, envLoopFault, NET_CONTROLLER_MAX,
      State.axis]
  · intro n
    rcases Nat.le_total n 28 with h | h
    · obtain ⟨d, hd⟩ := Nat.exists_eq_add_of_le h
      obtain ⟨es, he⟩ := runFrom_trace velS sig6 envLoopFault (run velS sig6 envLoopFault n) d
      rw [runFrom_run, ← hd] at he
      exact ⟨es, he.symm⟩
    · rw [run_halted_mono velS sig6 envLoopFault 28 n (by simp [State.halted, h28]) h]
  · rintro ⟨pre, x, post, h, ⟨a, rfl⟩, _⟩
    have hm : Event.moveVelStart a (0 : ℚ) ∈ pre ++ Event.moveVelStart a 0 :: post := by simp
    rw [← h] at hm
    simp at hm
  · rintro ⟨pre, x, post, h, ⟨a, rfl⟩, _⟩
    have hm : (Event.enableReq a false : Event ℚ) ∈ pre ++ Event.enableReq a false :: post := by
      simp
    rw [← h] at hm
    simp at hm
  · have h := (loop_run velS sig6 envOneAxis 1 _ envOneAxis_logOpen.1 envOneAxis_stops).2.2.2.2.2.2.2
    have hax : (run velS sig6 envOneAxis 21).axis = (0, 0) := by
      simp [run, step, init, sdk, State.goto, State.raise, envOneAxis, NET_CONTROLLER_MAX,
        State.axis]
    rw [runFrom_run, hax, envOneAxis_logOpen.2] at h
    rw [h]
    rfl

/-! ### Periodicity of the velocity (line 94) -/

/-- The `double` the literal of line 16 compiles to. -/
theorem PI_D_eq : PI_D = 884279719003555 / 2 ^ 48 := by
  have := roundTo_near_pos 2 (by norm_num) 52 PI 1 7074237752028440
    (by norm_num [PI]) (by norm_num [PI]) (by norm_num [PI, abs_lt])
  unfold PI_D roundDouble
  rw [this]; norm_num

/-- The products `2 * PI` and `2 * PI * FREQUENCY_HZ` of line 94 are exact: the
argument of the cosine is the rounded product of `PI` and `t_sec`. -/
theorem phase_eq (t : ℚ) : phase t = roundDouble (PI_D * t) := by
  have h1 : roundDouble (2 * PI_D) = 2 * PI_D := by
    have := roundTo_near_pos 2 (by norm_num) 52 (2 * PI_D) 2 7074237752028440
      (by norm_num [PI_D_eq]) (by norm_num [PI_D_eq]) (by norm_num [PI_D_eq, abs_lt])
    unfold roundDouble
    rw [this, PI_D_eq]; norm_num
  have h2 : roundDouble (2 * PI_D * FREQUENCY_HZ) = PI_D := by
    have := roundTo_near_pos 2 (by norm_num) 52 (2 * PI_D * FREQUENCY_HZ) 1 7074237752028440
      (by norm_num [PI_D_eq, FREQUENCY_HZ]) (by norm_num [PI_D_eq, FREQUENCY_HZ])
      (by norm_num [PI_D_eq, FREQUENCY_HZ, abs_lt])
    unfold roundDouble
    rw [this, PI_D_eq]; norm_num
  unfold phase
  rw [h1, h2]

theorem roundDouble_err_real (x : ℚ) :
    |((roundDouble x : ℚ) : ℝ) - (x : ℝ)| ≤ |(x : ℝ)| * 2 ^ (-53 : ℤ) := by
  have h := roundDouble_err x
  have h2 : ((|roundDouble x - x| : ℚ) : ℝ) ≤ ((|x| * 2 ^ (-53 : ℤ) : ℚ) : ℝ) := by
    exact_mod_cast h
  push_cast at h2
  exact h2

/-- The constant `PI` of the program lies below π, by 1.2246e-16 to 1.2248e-16. -/
theorem pi_sub_PI_D :
    (1.2246e-16 : ℝ) < Real.pi - (PI_D : ℝ) ∧ Real.pi - (PI_D : ℝ) < 1.2248e-16 := by
  have h1 := Real.pi_gt_d20
  have h2 := Real.pi_lt_d20
  rw [PI_D_eq]
  push_cast
  constructor <;> norm_num at h1 h2 ⊢ <;> linarith

/-- The velocity computed in `double` arithmetic is within `velErr` of
`VEL_LIM_RPM * cos (PI * t)` over the reals. -/
theorem velocityD_near (cosd : ℚ → ℚ) (t : ℚ) :
    |((velocityD cosd t : ℚ) : ℝ) - (VEL_LIM_RPM : ℝ) * Real.cos ((PI_D : ℝ) * (t : ℝ))| ≤
      velErr cosd t := by
  have hu : (0 : ℝ) < 2 ^ (-53 : ℤ) := by positivity
  have hV : ((VEL_LIM_RPM : ℕ) : ℝ) = 400 := by norm_num [VEL_LIM_RPM]
  -- rounding of the product
  have h1 := roundDouble_err_real ((VEL_LIM_RPM : ℚ) * cosd (phase t))
  -- the library cosine
  have h2 : |((cosd (phase t) : ℚ) : ℝ)| ≤ 1 + cosErr cosd (phase t) := by
    have := abs_sub_abs_le_abs_sub ((cosd (phase t) : ℚ) : ℝ) (Real.cos (phase t : ℝ))
    have hc := Real.abs_cos_le_one (phase t : ℝ)
    unfold cosErr
    linarith
  -- rounding of the argument
  have h3 : |Real.cos (phase t : ℝ) - Real.cos ((PI_D : ℝ) * (t : ℝ))| ≤
      2 ^ (-53 : ℤ) * (PI_D : ℝ) * |(t : ℝ)| := by
    have ha := abs_cos_sub_cos_le (phase t : ℝ) ((PI_D : ℝ) * (t : ℝ))
    have hb := roundDouble_err_real (PI_D * t)
    rw [← phase_eq] at hb
    push_cast at hb
    have hp : (0 : ℝ) ≤ (PI_D : ℝ) := by rw [PI_D_eq]; norm_num
    rw [abs_mul, abs_of_nonneg hp] at hb
    linarith
  unfold velocityD velErr
  push_cast at h1 ⊢
  rw [hV] at h1 ⊢
  rw [abs_mul] at h1
  have h400 : |(400 : ℝ)| = 400 := by norm_num
  rw [h400] at h1
  have e : ((roundDouble (400 * cosd (phase t)) : ℚ) : ℝ) - 400 * Real.cos ((PI_D : ℝ) * (t : ℝ))
      = (((roundDouble (400 * cosd (phase t)) : ℚ) : ℝ) - 400 * ((cosd (phase t) : ℚ) : ℝ))
        + 400 * (((cosd (phase t) : ℚ) : ℝ) - Real.cos (phase t : ℝ))
        + 400 * (Real.cos (phase t : ℝ) - Real.cos ((PI_D : ℝ) * (t : ℝ))) := by ring
  have hV2 : ((VEL_LIM_RPM : ℕ) : ℚ) = 400 := by norm_num [VEL_LIM_RPM]
  rw [hV2, e]
  have t1 := abs_add
    ((((roundDouble (400 * cosd (phase t)) : ℚ) : ℝ) - 400 * ((cosd (phase t) : ℚ) : ℝ))
        + 400 * (((cosd (phase t) : ℚ) : ℝ) - Real.cos (phase t : ℝ)))
    (400 * (Real.cos (phase t : ℝ) - Real.cos ((PI_D : ℝ) * (t : ℝ))))
  have t2 := abs_add
    (((roundDouble (400 * cosd (phase t)) : ℚ) : ℝ) - 400 * ((cosd (phase t) : ℚ) : ℝ))
    (400 * (((cosd (phase t) : ℚ) : ℝ) - Real.cos (phase t : ℝ)))
  have t3 : |400 * (((cosd (phase t) : ℚ) : ℝ) - Real.cos (phase t : ℝ))|
      = 400 * cosErr cosd (phase t) := by
    rw [abs_mul, h400]; rfl
  have t4 : |400 * (Real.cos (phase t : ℝ) - Real.cos ((PI_D : ℝ) * (t : ℝ)))|
      = 400 * |Real.cos (phase t : ℝ) - Real.cos ((PI_D : ℝ) * (t : ℝ))| := by
    rw [abs_mul, h400]
  rw [hV2] at h1
  push_cast at h1
  have t5 : 400 * |((cosd (phase t) : ℚ) : ℝ)| * 2 ^ (-53 : ℤ)
      ≤ 400 * (1 + cosErr cosd (phase t)) * 2 ^ (-53 : ℤ) := by
    apply mul_le_mul_of_nonneg_right _ hu.le
    linarith
  linarith

/-- C7, amended: the velocity that line 94 computes in `double` arithmetic, for any
library cosine `cosd`, repeats after k periods of 1/Frequency = 2 s up to the drift
of the constant `PI` away from π and the rounding of the computation:
|velocity(t + k/Frequency) - velocity(t)| is at most 800·|k|·(π - PI) plus the
bounds `velErr` on the rounding at the two times, where π - PI lies between
1.2246e-16 and 1.2248e-16. -/
theorem velocity_period (cosd : ℚ → ℚ) (t : ℚ) (k : ℤ) :
    |((velocityD cosd (t + k / FREQUENCY_HZ) : ℚ) : ℝ) - ((velocityD cosd t : ℚ) : ℝ)| ≤
        800 * |(k : ℝ)| * (Real.pi - (PI_D : ℝ)) + velErr cosd t +
          velErr cosd (t + k / FREQUENCY_HZ) ∧
      (1.2246e-16 : ℝ) < Real.pi - (PI_D : ℝ) ∧ Real.pi - (PI_D : ℝ) < 1.2248e-16 := by
  refine ⟨?_, pi_sub_PI_D⟩
  have hd := pi_sub_PI_D.1
  have hV : ((VEL_LIM_RPM : ℕ) : ℝ) = 400 := by norm_num [VEL_LIM_RPM]
  have h1 := velocityD_near cosd t
  have h2 := velocityD_near cosd (t + k / FREQUENCY_HZ)
  rw [hV] at h1 h2
  have e1 : (((t + k / FREQUENCY_HZ : ℚ)) : ℝ) = (t : ℝ) + 2 * (k : ℝ) := by
    unfold FREQUENCY_HZ; push_cast; ring
  rw [e1] at h2
  -- the exact cosine at the two times
  have h3 : |Real.cos ((PI_D : ℝ) * ((t : ℝ) + 2 * (k : ℝ))) - Real.cos ((PI_D : ℝ) * (t : ℝ))| ≤
      2 * |(k : ℝ)| * (Real.pi - (PI_D : ℝ)) := by
    have hc := Real.cos_add_int_mul_two_pi ((PI_D : ℝ) * (t : ℝ)) k
    rw [← hc]
    have hl := abs_cos_sub_cos_le ((PI_D : ℝ) * ((t : ℝ) + 2 * (k : ℝ)))
      ((PI_D : ℝ) * (t : ℝ) + (k : ℝ) * (2 * Real.pi))
    have e2 : (PI_D : ℝ) * ((t : ℝ) + 2 * (k : ℝ)) - ((PI_D : ℝ) * (t : ℝ) + (k : ℝ) * (2 * Real.pi))
        = (2 * (k : ℝ)) * (-(Real.pi - (PI_D : ℝ))) := by ring
    rw [e2, abs_mul, abs_neg, abs_mul, abs_of_pos (by linarith : (0 : ℝ) < Real.pi - (PI_D : ℝ))] at hl
    have h2' : |(2 : ℝ)| = 2 := by norm_num
    rw [h2'] at hl
    exact hl
  have e : ((velocityD cosd (t + k / FREQUENCY_HZ) : ℚ) : ℝ) - ((velocityD cosd t : ℚ) : ℝ)
      = (((velocityD cosd (t + k / FREQUENCY_HZ) : ℚ) : ℝ)
          - 400 * Real.cos ((PI_D : ℝ) * ((t : ℝ) + 2 * (k : ℝ))))
        + 400 * (Real.cos ((PI_D : ℝ) * ((t : ℝ) + 2 * (k : ℝ))) - Real.cos ((PI_D : ℝ) * (t : ℝ)))
        - (((velocityD cosd t : ℚ) : ℝ) - 400 * Real.cos ((PI_D : ℝ) * (t : ℝ))) := by ring
  rw [e]
  have t1 := abs_sub
    ((((velocityD cosd (t + k / FREQUENCY_HZ) : ℚ) : ℝ)
          - 400 * Real.cos ((PI_D : ℝ) * ((t : ℝ) + 2 * (k : ℝ))))
        + 400 * (Real.cos ((PI_D : ℝ) * ((t : ℝ) + 2 * (k : ℝ))) - Real.cos ((PI_D : ℝ) * (t : ℝ))))
    (((velocityD cosd t : ℚ) : ℝ) - 400 * Real.cos ((PI_D : ℝ) * (t : ℝ)))
  have t2 := abs_add
    (((velocityD cosd (t + k / FREQUENCY_HZ) : ℚ) : ℝ)
          - 400 * Real.cos ((PI_D : ℝ) * ((t : ℝ) + 2 * (k : ℝ))))
    (400 * (Real.cos ((PI_D : ℝ) * ((t : ℝ) + 2 * (k : ℝ))) - Real.cos ((PI_D : ℝ) * (t : ℝ))))
  have t3 : |400 * (Real.cos ((PI_D : ℝ) * ((t : ℝ) + 2 * (k : ℝ))) - Real.cos ((PI_D : ℝ) * (t : ℝ)))|
      = 400 * |Real.cos ((PI_D : ℝ) * ((t : ℝ) + 2 * (k : ℝ))) - Real.cos ((PI_D : ℝ) * (t : ℝ))| := by
    rw [abs_mul]; norm_num
  linarith

theorem phase_half : phase (1 / 2) = PI_D / 2 := by
  have := roundTo_near_pos 2 (by norm_num) 52 (PI_D * (1 / 2)) 0 7074237752028440
    (by norm_num [PI_D_eq]) (by norm_num [PI_D_eq]) (by norm_num [PI_D_eq, abs_lt])
  rw [phase_eq]; unfold roundDouble
  rw [this, PI_D_eq]; norm_num

theorem phase_five_halves : phase (5 / 2) = 5 * PI_D / 2 := by
  have := roundTo_near_pos 2 (by norm_num) 52 (PI_D * (5 / 2)) 2 8842797190035550
    (by norm_num [PI_D_eq]) (by norm_num [PI_D_eq]) (by norm_num [PI_D_eq, abs_lt])
  rw [phase_eq]; unfold roundDouble
  rw [this, PI_D_eq]; norm_num

/-- The exact cosine at the argument computed for t = 0.5 s. -/
theorem cos_phase_half :
    0 < Real.cos ((phase (1 / 2) : ℚ) : ℝ) ∧ Real.cos ((phase (1 / 2) : ℚ) : ℝ) < 6.2e-17 := by
  obtain ⟨h1, h2⟩ := pi_sub_PI_D
  have e : ((phase (1 / 2) : ℚ) : ℝ) = Real.pi / 2 - (Real.pi - (PI_D : ℝ)) / 2 := by
    rw [phase_half]; push_cast; ring
  rw [e, Real.cos_pi_div_two_sub]
  have hpos : 0 < (Real.pi - (PI_D : ℝ)) / 2 := by linarith
  constructor
  · exact Real.sin_pos_of_pos_of_lt_pi hpos (by linarith [Real.pi_gt_three])
  · have := Real.sin_lt hpos
    norm_num at h2 ⊢
    linarith

/-- The exact cosine at the argument computed for t = 2.5 s. -/
theorem cos_phase_five_halves : 3.0e-16 < Real.cos ((phase (5 / 2) : ℚ) : ℝ) := by
  obtain ⟨h1, h2⟩ := pi_sub_PI_D
  have e : ((phase (5 / 2) : ℚ) : ℝ)
      = Real.pi / 2 - 5 * (Real.pi - (PI_D : ℝ)) / 2 + 2 * Real.pi := by
    rw [phase_five_halves]; push_cast; ring
  rw [e, Real.cos_add_two_pi, Real.cos_pi_div_two_sub]
  have hpos : 0 < 5 * (Real.pi - (PI_D : ℝ)) / 2 := by linarith
  have hle : 5 * (Real.pi - (PI_D : ℝ)) / 2 ≤ 1 / 1000 := by norm_num at h2 ⊢; linarith
  have := Real.sin_gt_sub_cube hpos (by linarith)
  have hcube : (5 * (Real.pi - (PI_D : ℝ)) / 2) ^ 3 / 4 ≤ (5 * (Real.pi - (PI_D : ℝ)) / 2) / 1000 := by
    have hsq : (5 * (Real.pi - (PI_D : ℝ)) / 2) ^ 2 ≤ 1 := by nlinarith
    nlinarith
  norm_num at h1 ⊢
  linarith

/-- C7, as stated, fails: for every library cosine with relative error at most 1/4
at the arguments computed for t = 0.5 s and t = 2.5 s, the velocity of line 94 at
t = 0.5 s is below 3.2e-14 and the velocity one period of 1/Frequency later is above
8e-14 (in the program: 2.45e-14 and 1.22e-13), so the velocity is not periodic. -/
theorem velocity_not_periodic :
    ¬ ∃ cosd : ℚ → ℚ, CosWithin cosd (1 / 4) (phase (1 / 2)) ∧
      CosWithin cosd (1 / 4) (phase (5 / 2)) ∧
      ∀ (t : ℚ) (k : ℤ), velocityD cosd (t + k / FREQUENCY_HZ) = velocityD cosd t := by
  rintro ⟨cosd, ha, hb, hper⟩
  have hp := hper (1 / 2) 1
  have e : (1 / 2 : ℚ) + ((1 : ℤ) : ℚ) / FREQUENCY_HZ = 5 / 2 := by norm_num [FREQUENCY_HZ]
  rw [e] at hp
  obtain ⟨c1pos, c1lt⟩ := cos_phase_half
  have c2gt := cos_phase_five_halves
  unfold CosWithin at ha hb
  rw [abs_of_pos c1pos, abs_le] at ha
  rw [abs_of_pos (by linarith : (0 : ℝ) < Real.cos ((phase (5 / 2) : ℚ) : ℝ)), abs_le] at hb
  have hV : ((VEL_LIM_RPM : ℕ) : ℚ) = 400 := by norm_num [VEL_LIM_RPM]
  have r1 := roundDouble_err_real ((VEL_LIM_RPM : ℚ) * cosd (phase (1 / 2)))
  have r2 := roundDouble_err_real ((VEL_LIM_RPM : ℚ) * cosd (phase (5 / 2)))
  have hreal : ((velocityD cosd (5 / 2) : ℚ) : ℝ) = ((velocityD cosd (1 / 2) : ℚ) : ℝ) := by
    rw [hp]
  unfold velocityD at hreal
  rw [hV] at r1 r2 hreal
  push_cast at r1 r2 hreal
  have a1pos : (0 : ℝ) < ((cosd (phase (1 / 2)) : ℚ) : ℝ) := by linarith [ha.1]
  have a2pos : (0 : ℝ) < ((cosd (phase (5 / 2)) : ℚ) : ℝ) := by linarith [hb.1]
  rw [abs_of_pos (by linarith : (0 : ℝ) < 400 * ((cosd (phase (1 / 2)) : ℚ) : ℝ)), abs_le] at r1
  rw [abs_of_pos (by linarith : (0 : ℝ) < 400 * ((cosd (phase (5 / 2)) : ℚ) : ℝ)), abs_le] at r2
  have hu : (2 : ℝ) ^ (-53 : ℤ) ≤ 1 / 1000 := by norm_num
  have hu0 : (0 : ℝ) < 2 ^ (-53 : ℤ) := by positivity
  have b1 : ((roundDouble (400 * cosd (phase (1 / 2))) : ℚ) : ℝ) < 3.2e-14 := by
    have : 400 * ((cosd (phase (1 / 2)) : ℚ) : ℝ) * 2 ^ (-53 : ℤ)
        ≤ 400 * ((cosd (phase (1 / 2)) : ℚ) : ℝ) * (1 / 1000) :=
      mul_le_mul_of_nonneg_left hu (by linarith)
    norm_num at c1lt ⊢
    linarith [ha.2, r1.2]
  have b2 : (8e-14 : ℝ) < ((roundDouble (400 * cosd (phase (5 / 2))) : ℚ) : ℝ) := by
    have : 400 * ((cosd (phase (5 / 2)) : ℚ) : ℝ) * 2 ^ (-53 : ℤ)
        ≤ 400 * ((cosd (phase (5 / 2)) : ℚ) : ℝ) * (1 / 1000) :=
      mul_le_mul_of_nonneg_left hu (by linarith)
    norm_num at c2gt ⊢
    linarith [hb.1, r2.1]
  rw [hreal] at b2
  norm_num at b1 b2
  linarith

/-! ### Log fidelity against the deterministic clock -/

/-- A number with at most `p + 1` significant digits in base `b` is left as it is. -/
theorem roundTo_exact (b : ℕ) (hb : 1 < b) (p : ℤ) (x : ℚ) (e n : ℤ)
    (h1 : (b : ℚ) ^ e ≤ |x|) (h2 : |x| < (b : ℚ) ^ (e + 1))
    (hx : x = (n : ℚ) * (b : ℚ) ^ (e - p)) : roundTo b p x = x := by
  have hb0 : (0 : ℚ) < b := by exact_mod_cast (by omega : 0 < b)
  have hq : (b : ℚ) ^ (e - p) ≠ 0 := (zpow_pos hb0 _).ne'
  have hn : |x / (b : ℚ) ^ (e - p) - n| < 1 / 2 := by
    rw [hx, mul_div_assoc, div_self hq]; norm_num
  rw [roundTo_near b hb p x e n h1 h2 hn, ← hx]

theorem roundTo_exact_pos (b : ℕ) (hb : 1 < b) (p : ℤ) (x : ℚ) (e n : ℤ)
    (h1 : (b : ℚ) ^ e ≤ x) (h2 : x < (b : ℚ) ^ (e + 1))
    (hx : x = (n : ℚ) * (b : ℚ) ^ (e - p)) : roundTo b p x = x := by
  have h0 : 0 < x :=
    lt_of_lt_of_le (zpow_pos (by exact_mod_cast (by omega : 0 < b)) e) h1
  exact roundTo_exact b hb p x e n (by rwa [abs_of_pos h0]) (by rwa [abs_of_pos h0]) hx

theorem roundDouble_zero : roundDouble 0 = 0 := by simp [roundDouble, roundTo]

theorem sig6_zero : sig6 0 = 0 := by simp [sig6, roundTo]

theorem roundDouble_one : roundDouble 1 = 1 :=
  roundTo_exact 2 (by norm_num) 52 1 0 (2 ^ 52) (by norm_num) (by norm_num) (by norm_num)

theorem roundDouble_20 : roundDouble 20 = 20 :=
  roundTo_exact 2 (by norm_num) 52 20 4 (20 * 2 ^ 48) (by norm_num) (by norm_num) (by norm_num)

theorem roundDouble_1000 : roundDouble 1000 = 1000 :=
  roundTo_exact 2 (by norm_num) 52 1000 9 (1000 * 2 ^ 43) (by norm_num) (by norm_num)
    (by norm_num)

theorem roundDouble_400 : roundDouble 400 = 400 :=
  roundTo_exact 2 (by norm_num) 52 400 8 (400 * 2 ^ 44) (by norm_num) (by norm_num)
    (by norm_num)

theorem roundDouble_neg_400 : roundDouble (-400) = -400 :=
  roundTo_exact 2 (by norm_num) 52 (-400) 8 (-(400 * 2 ^ 44)) (by norm_num) (by norm_num)
    (by norm_num)

theorem sig6_one : sig6 1 = 1 :=
  roundTo_exact 10 (by norm_num) 5 1 0 (10 ^ 5) (by norm_num) (by norm_num) (by norm_num)

theorem sig6_400 : sig6 400 = 400 :=
  roundTo_exact 10 (by norm_num) 5 400 2 400000 (by norm_num) (by norm_num) (by norm_num)

theorem sig6_neg_400 : sig6 (-400) = -400 :=
  roundTo_exact 10 (by norm_num) 5 (-400) 2 (-400000) (by norm_num) (by norm_num)
    (by norm_num)

theorem tickTime_zero : tickTime 0 = 0 := by
  simp [tickTime, roundDouble_zero]

theorem tickTime_50 : tickTime 50 = 1 := by
  have e : (1000 : ℚ) * (((50 : ℕ) : ℚ) / LOOP_RATE_HZ) = 1000 := by norm_num [LOOP_RATE_HZ]
  unfold tickTime
  rw [e, roundDouble_1000]
  norm_num [roundDouble_one]

/-- The `t_sec` of the second cycle, 20 ms after `timeStart`: the `double` nearest
to 0.02. -/
theorem tickTime_one : tickTime 1 = 5764607523034235 / 2 ^ 58 := by
  have e : (1000 : ℚ) * (((1 : ℕ) : ℚ) / LOOP_RATE_HZ) = 20 := by norm_num [LOOP_RATE_HZ]
  have := roundTo_near_pos 2 (by norm_num) 52 (20 / 1000) (-6) 5764607523034235
    (by norm_num) (by norm_num) (by norm_num [abs_lt])
  unfold tickTime
  rw [e, roundDouble_20]
  unfold roundDouble
  rw [this]; norm_num

theorem phase_zero : phase 0 = 0 := by
  rw [phase_eq]; simp [roundDouble_zero]

theorem phase_one : phase 1 = PI_D := by
  rw [phase_eq, mul_one]
  exact roundTo_exact_pos 2 (by norm_num) 52 PI_D 1 7074237752028440 (by norm_num [PI_D_eq])
    (by norm_num [PI_D_eq]) (by norm_num [PI_D_eq])

/-- The argument of the cosine in the second cycle: the `double` nearest to the
product of `PI` and 0.02. -/
theorem phase_tickTime_one : phase (tickTime 1) = 4527512161298202 / 2 ^ 56 := by
  have := roundTo_near_pos 2 (by norm_num) 52 (PI_D * (5764607523034235 / 2 ^ 58)) (-4)
    4527512161298202 (by norm_num [PI_D_eq]) (by norm_num [PI_D_eq])
    (by norm_num [PI_D_eq, abs_lt])
  rw [phase_eq, tickTime_one]
  unfold roundDouble
  rw [this]; norm_num

theorem velocityD_zero (cosd : ℚ → ℚ) (h : cosd 0 = 1) : velocityD cosd 0 = 400 := by
  unfold velocityD
  rw [phase_zero, h]
  norm_num [VEL_LIM_RPM, roundDouble_400]

theorem velocityD_one (cosd : ℚ → ℚ) (h : cosd PI_D = -1) : velocityD cosd 1 = -400 := by
  unfold velocityD
  rw [phase_one, h]
  norm_num [VEL_LIM_RPM, roundDouble_neg_400]

theorem quadrant_zero : quadrant 0 = 0 := by
  unfold quadrant
  exact rne_of_near _ 0 (by norm_num)

theorem cosSample_zero : cosSample 0 = 1 := by
  unfold cosSample reduced
  rw [quadrant_zero]
  norm_num [cosSeries, Finset.sum_range_succ, roundDouble_one]

theorem quadrant_PI_D : quadrant PI_D = 2 := by
  unfold quadrant
  exact rne_of_near _ 2 (by norm_num [PI_D_eq, PI_REF, abs_lt])

set_option maxRecDepth 100000 in
theorem cosSample_PI_D : cosSample PI_D = -1 := by
  have hx : PI_D - (2 : ℤ) * (PI_REF / 2) =
      884279719003555 / 2 ^ 48 - 3.14159265358979323846264338327950288 := by
    rw [PI_D_eq]; norm_num [PI_REF]
  have := roundTo_near 2 (by norm_num) 52
    (-cosSeries (884279719003555 / 2 ^ 48 - 3.14159265358979323846264338327950288))
    (-1) (-(2 ^ 53))
    (by norm_num [cosSeries, Finset.sum_range_succ, Nat.factorial, abs_le, le_abs])
    (by norm_num [cosSeries, Finset.sum_range_succ, Nat.factorial, abs_lt])
    (by norm_num [cosSeries, Finset.sum_range_succ, Nat.factorial, abs_lt])
  unfold cosSample reduced
  rw [quadrant_PI_D, hx]
  have h1 : ¬ ((2 : ℤ) % 4 = 0) := by norm_num
  have h2 : ¬ ((2 : ℤ) % 4 = 1) := by norm_num
  have h3 : (2 : ℤ) % 4 = 2 := by norm_num
  rw [if_neg h1, if_neg h2, if_pos h3]
  unfold roundDouble
  rw [this]; norm_num

/-- Against the deterministic clock the `t_sec` of cycle `j` is `tickTime j`. -/
theorem cycleTime_ticks (env : Env) (k K j : Nat) (hc : ClockTicks env k K) (hj : j < K) :
    cycleTime env (env.clock (k + 2)) (k + 3 + 6 * j) = tickTime j := by
  unfold cycleTime tickTime
  rw [hc j hj, add_sub_cancel_left]

/-- C6, amended: a control-loop run of K cycles against the deterministic clock
(cycle j is read j/Rate seconds after `timeStart`) leaves the header and exactly K
rows in the log; row j holds the 6-significant-digit renderings of the `t_sec` of
cycle j and of the value sent in cycle j, which is the velocity of line 94 at that
`t_sec`, computed in `double` arithmetic; the values sent are these K values and
then the 0 of the shutdown.  With a library cosine that gives 1 at 0 and -1 at `PI`,
the first row is (0, 400) and the row of cycle 50, at t = 1.0, is (1, -400). -/
theorem log_fidelity (cosd : ℚ → ℚ) (env : Env) (n K : Nat)
    (hpc : (run (velocityD cosd) sig6 env n).pc = .logOpen)
    (hs : StopsAfter env (run (velocityD cosd) sig6 env n).k K)
    (hc : ClockTicks env (run (velocityD cosd) sig6 env n).k K) :
    ∃ rows es,
      (run (velocityD cosd) sig6 env (n + (6 * K + 7))).file = .header :: rows ∧
      (run (velocityD cosd) sig6 env (n + (6 * K + 7))).trace =
        (run (velocityD cosd) sig6 env n).trace ++ es ∧
      rows.length = K ∧
      (∀ j, j < K →
        rows[j]? = some (.row (sig6 (tickTime j)) (sig6 (velocityD cosd (tickTime j))))) ∧
      (∀ j, j < K → (dispatched es)[j]? = some (velocityD cosd (tickTime j))) ∧
      (dispatched es).length = K + 1 ∧ (dispatched es)[K]? = some 0 ∧
      (cosd 0 = 1 → 0 < K → rows[0]? = some (.row 0 400)) ∧
      (cosd PI_D = -1 → 50 < K → rows[50]? = some (.row 1 (-400))) := by
  obtain ⟨rows, es, h1, h2, h3, h4, h5, _, h7⟩ := log_rows (velocityD cosd) sig6 env K _ hpc hs
  rw [runFrom_run] at h1 h2
  have hrow : ∀ j, j < K →
      rows[j]? = some (.row (sig6 (tickTime j)) (sig6 (velocityD cosd (tickTime j)))) := by
    intro j hj
    rw [h4 j hj, cycleTime_ticks env _ K j hc hj]
  refine ⟨rows, es, h1, h2, h3, hrow, ?_, ?_, ?_, ?_, ?_⟩
  · intro j hj
    rw [h5 j hj, cycleTime_ticks env _ K j hc hj]
  · rw [h7, List.length_append, cycleValues_length]; rfl
  · rw [h7, List.getElem?_append_right (by rw [cycleValues_length]), cycleValues_length]
    simp
  · intro h0 hK
    rw [hrow 0 hK, tickTime_zero, velocityD_zero cosd h0, sig6_zero, sig6_400]
  · intro h1 hK
    rw [hrow 50 hK, tickTime_50, velocityD_one cosd h1, sig6_one, sig6_neg_400]

theorem envHundred_at_logOpen [Zero V] (vel : ℚ → V) (fmt : V → V) :
    (run vel fmt envHundred 21).pc = .logOpen ∧ (run vel fmt envHundred 21).k = 21 ∧
      dispatched (run vel fmt envHundred 21).trace = [] := by
  have ht : (run vel fmt envHundred 21).trace =
      [.rosInfo .starting, .findComHubPorts ["COM1"], .comHubPort 0 "COM1", .portsOpen 1,
       .ports 0, .nodeCount 0 1, .nodes (0, 0), .enableReq (0, 0) false, .delay 200,
       .alertsClear (0, 0), .nodeStopClear (0, 0), .enableReq (0, 0) true, .timeStampMsec 0,
       .isReady (0, 0) true, .homingValid (0, 0) true, .wasHomed (0, 0) true, .velUnit (0, 0),
       .accUnit (0, 0), .accLimit (0, 0) ACC_LIM_RPM_PER_SEC, .velLimit (0, 0) VEL_LIM_RPM] := by
    simp [run, step, init, sdk, State.goto, State.raise, envHundred, NET_CONTROLLER_MAX,
      State.axis]
  refine ⟨?_, ?_, ?_⟩
  · simp [run, step, init, sdk, State.goto, State.raise, envHundred, NET_CONTROLLER_MAX]
  · simp [run, step, init, sdk, State.goto, State.raise, envHundred, NET_CONTROLLER_MAX]
  · rw [ht]; rfl

theorem envHundred_stops_at : StopsAfter envHundred 21 100 := by
  refine ⟨rfl, ?_, ?_, rfl, rfl⟩
  · intro j hj
    refine ⟨?_, rfl, rfl⟩
    simp only [envHundred, decide_eq_true_eq]
    omega
  · simp [envHundred]

theorem envHundred_ticks : ClockTicks envHundred 21 100 := by
  intro j hj
  have e : (21 + 3 + 6 * j + 1 - 25) / 6 = j := by omega
  simp only [envHundred, e]
  norm_num [LOOP_RATE_HZ]
  ring

theorem quadrant_tick_one : quadrant (4527512161298202 / 2 ^ 56) = 0 := by
  unfold quadrant
  exact rne_of_near _ 0 (by norm_num [PI_REF, abs_lt])

set_option maxRecDepth 100000 in
/-- The sample cosine at the argument of the second cycle. -/
theorem cosSample_tick_one :
    cosSample (4527512161298202 / 2 ^ 56) = 8989425604510718 / 2 ^ 53 := by
  have := roundTo_near_pos 2 (by norm_num) 52 (cosSeries (4527512161298202 / 2 ^ 56)) (-1)
    8989425604510718
    (by norm_num [cosSeries, Finset.sum_range_succ, Nat.factorial])
    (by norm_num [cosSeries, Finset.sum_range_succ, Nat.factorial])
    (by norm_num [cosSeries, Finset.sum_range_succ, Nat.factorial, abs_lt])
  unfold cosSample reduced
  rw [quadrant_tick_one]
  have h0 : (0 : ℤ) % 4 = 0 := by norm_num
  rw [if_pos h0]
  have e : (4527512161298202 / 2 ^ 56 : ℚ) - ((0 : ℤ) : ℚ) * (PI_REF / 2)
      = 4527512161298202 / 2 ^ 56 := by norm_num
  rw [e]
  unfold roundDouble
  rw [this]; norm_num

/-- The value sent in the second cycle of the sample run, and what the log holds
for it. -/
theorem velocityD_sample_tick_one :
    velocityD cosSample (tickTime 1) = 3511494376761999 / 2 ^ 43 ∧
      sig6 (velocityD cosSample (tickTime 1)) = 399211 / 1000 ∧ sig6 (tickTime 1) = 1 / 50 := by
  have hv : velocityD cosSample (tickTime 1) = 3511494376761999 / 2 ^ 43 := by
    have := roundTo_near_pos 2 (by norm_num) 52 (400 * (8989425604510718 / 2 ^ 53)) 8
      7022988753523998 (by norm_num) (by norm_num) (by norm_num [abs_lt])
    unfold velocityD
    rw [phase_tickTime_one, cosSample_tick_one]
    have hV : ((VEL_LIM_RPM : ℕ) : ℚ) = 400 := by norm_num [VEL_LIM_RPM]
    rw [hV]
    unfold roundDouble
    rw [this]; norm_num
  refine ⟨hv, ?_, ?_⟩
  · have := roundTo_near_pos 10 (by norm_num) 5 (3511494376761999 / 2 ^ 43) 2 399211
      (by norm_num) (by norm_num) (by norm_num [abs_lt])
    rw [hv]; unfold sig6
    rw [this]; norm_num
  · have := roundTo_near_pos 10 (by norm_num) 5 (5764607523034235 / 2 ^ 58) (-2) 200000
      (by norm_num) (by norm_num) (by norm_num [abs_lt])
    rw [tickTime_one]; unfold sig6
    rw [this]; norm_num

theorem log_fidelity_witness :
    ∃ rows es, (run velS sig6 envHundred 628).file = .header :: rows ∧
      (run velS sig6 envHundred 628).trace = (run velS sig6 envHundred 21).trace ++ es ∧
      rows.length = 100 ∧ rows[0]? = some (.row 0 400) ∧
      rows[1]? = some (.row (1 / 50) (399211 / 1000)) ∧
      (dispatched es)[1]? = some (3511494376761999 / 2 ^ 43) ∧
      rows[50]? = some (.row 1 (-400)) ∧
      (dispatched es).length = 101 ∧ (dispatched es)[100]? = some 0 := by
  obtain ⟨rows, es, h1, h2, h3, h4, h5, h6, h7, h8, h9⟩ :=
    log_fidelity cosSample envHundred 21 100 (envHundred_at_logOpen _ _).1
      (by rw [(envHundred_at_logOpen _ _).2.1]; exact envHundred_stops_at)
      (by rw [(envHundred_at_logOpen _ _).2.1]; exact envHundred_ticks)
  have r1 := h4 1 (by norm_num)
  have d1 := h5 1 (by norm_num)
  rw [velocityD_sample_tick_one.2.1, velocityD_sample_tick_one.2.2] at r1
  rw [velocityD_sample_tick_one.1] at d1
  exact ⟨rows, es, h1, h2, h3, h8 cosSample_zero (by norm_num), r1, d1,
    h9 cosSample_PI_D (by norm_num), h6, h7⟩

/-- The value sent in the second cycle of a run against the deterministic clock,
for a library cosine with relative error at most 1e-7 at its argument: between
399.2103 and 399.2109. -/
theorem velocityD_tick_one (cosd : ℚ → ℚ)
    (h : CosWithin cosd (1 / 10 ^ 7) (phase (tickTime 1))) :
    3992103 / 10000 < velocityD cosd (tickTime 1) ∧
      velocityD cosd (tickTime 1) < 3992109 / 10000 := by
  have hx : ((phase (tickTime 1) : ℚ) : ℝ) = 4527512161298202 / 2 ^ 56 := by
    rw [phase_tickTime_one]; push_cast; rfl
  have hb := @Real.cos_bound (4527512161298202 / 2 ^ 56) (by rw [abs_le]; constructor <;> norm_num)
  have hb2 := @Real.one_sub_sq_div_two_le_cos (4527512161298202 / 2 ^ 56)
  rw [abs_le] at hb
  have habs : |(4527512161298202 / 2 ^ 56 : ℝ)| = 4527512161298202 / 2 ^ 56 :=
    abs_of_pos (by norm_num)
  rw [habs] at hb
  have hL : (998026 / 1000000 : ℝ) ≤ Real.cos (4527512161298202 / 2 ^ 56) := by
    have : (998026 / 1000000 : ℝ) ≤ 1 - (4527512161298202 / 2 ^ 56 : ℝ) ^ 2 / 2 := by norm_num
    linarith
  have hU : Real.cos (4527512161298202 / 2 ^ 56) ≤ (998027 / 1000000 : ℝ) := by
    have : 1 - (4527512161298202 / 2 ^ 56 : ℝ) ^ 2 / 2
        + (4527512161298202 / 2 ^ 56 : ℝ) ^ 4 * (5 / 96) ≤ (998027 / 1000000 : ℝ) := by norm_num
    linarith [hb.2]
  unfold CosWithin at h
  rw [hx] at h
  have hV : ((VEL_LIM_RPM : ℕ) : ℚ) = 400 := by norm_num [VEL_LIM_RPM]
  have r1 := roundDouble_err_real ((VEL_LIM_RPM : ℚ) * cosd (phase (tickTime 1)))
  rw [hV] at r1
  push_cast at r1
  have hu : (2 : ℝ) ^ (-53 : ℤ) ≤ 1 / 1000000000000 := by norm_num
  have hu0 : (0 : ℝ) ≤ 2 ^ (-53 : ℤ) := by positivity
  have hreal : (3992103 / 10000 : ℝ) < ((velocityD cosd (tickTime 1) : ℚ) : ℝ) ∧
      ((velocityD cosd (tickTime 1) : ℚ) : ℝ) < 3992109 / 10000 := by
    unfold velocityD
    rw [hV]
    clear hb hb2 habs hx
    generalize Real.cos (4527512161298202 / 2 ^ 56) = c at h hL hU
    generalize ((cosd (phase (tickTime 1)) : ℚ) : ℝ) = a at h r1
    generalize ((roundDouble (400 * cosd (phase (tickTime 1))) : ℚ) : ℝ) = v at r1
    generalize (2 : ℝ) ^ (-53 : ℤ) = u at r1 hu hu0
    have cpos : 0 < c := by linarith
    rw [abs_of_pos cpos, abs_le] at h
    have hr : (1 / 10 ^ 7 : ℝ) * c ≤ 1 / 10000000 := by nlinarith
    have apos : 0 < a := by linarith [h.1]
    have ale : a ≤ 1 := by linarith [h.2]
    rw [abs_of_pos (by linarith : (0 : ℝ) < 400 * a), abs_le] at r1
    have hau : 400 * a * u ≤ 400 * (1 / 1000000000000) := by nlinarith
    constructor
    · linarith [h.1, r1.1]
    · linarith [h.2, r1.2]
  constructor
  · have h1 : (((3992103 / 10000 : ℚ)) : ℝ) < ((velocityD cosd (tickTime 1) : ℚ) : ℝ) := by
      push_cast; exact hreal.1
    exact Rat.cast_lt.mp h1
  · have h2 : ((velocityD cosd (tickTime 1) : ℚ) : ℝ) < (((3992109 / 10000 : ℚ)) : ℝ) := by
      push_cast; exact hreal.2
    exact Rat.cast_lt.mp h2

/-- A number strictly between 399.210 and 399.211 has more than 6 significant
digits. -/
theorem sig6_ne_self (v : ℚ) (h1 : 399210 / 1000 < v) (h2 : v < 399211 / 1000) :
    sig6 v ≠ v := by
  intro he
  have hpos : (0 : ℚ) < v := by linarith
  have := roundTo_eq 10 (by norm_num) 5 v 2 (by rw [abs_of_pos hpos]; norm_num; linarith)
    (by rw [abs_of_pos hpos]; norm_num; linarith)
  unfold sig6 at he
  rw [this] at he
  have hq : (((10 : ℕ) : ℚ)) ^ ((2 : ℤ) - 5) = 1 / 1000 := by norm_num
  generalize rne (v / ((10 : ℕ) : ℚ) ^ ((2 : ℤ) - 5)) = m at he
  rw [hq] at he
  have l1 : ((399210 : ℤ) : ℚ) < (m : ℚ) := by push_cast; linarith
  have l2 : (m : ℚ) < ((399211 : ℤ) : ℚ) := by push_cast; linarith
  have l1' : (399210 : ℤ) < m := by exact_mod_cast l1
  have l2' : m < (399211 : ℤ) := by exact_mod_cast l2
  omega

/-- C6, as stated, fails: in the run of 100 cycles at 50 Hz against `envHundred`,
for every library cosine with relative error at most 1e-7 at the argument of the
second cycle, the value sent in that cycle lies strictly between 399.2103 and
399.2109, and the row of that cycle holds its rendering with 6 significant digits,
another number: the velocity column of the log is not the list of the values sent. -/
theorem log_row_not_dispatched :
    ¬ ∃ cosd : ℚ → ℚ, CosWithin cosd (1 / 10 ^ 7) (phase (tickTime 1)) ∧
      ∀ j, j < 100 →
        (rowValues (run (velocityD cosd) sig6 envHundred 628).file)[j]? =
          (dispatched (run (velocityD cosd) sig6 envHundred 628).trace)[j]? := by
  rintro ⟨cosd, hacc, hrows⟩
  obtain ⟨hpc, hk, hd⟩ := envHundred_at_logOpen (velocityD cosd) sig6
  obtain ⟨rows, es, h1, h2, _, _, _, h6, h7⟩ := log_rows (velocityD cosd) sig6 envHundred 100 _
    hpc (by rw [hk]; exact envHundred_stops_at)
  rw [runFrom_run] at h1 h2
  have hv := cycleValues_getElem? (velocityD cosd) envHundred
    (envHundred.clock ((run (velocityD cosd) sig6 envHundred 21).k + 2))
    100 ((run (velocityD cosd) sig6 envHundred 21).k + 3) 1 (by norm_num)
  rw [cycleTime_ticks envHundred _ 100 1 (by rw [hk]; exact envHundred_ticks) (by norm_num)] at hv
  have hlen := cycleValues_length (velocityD cosd) envHundred
    (envHundred.clock ((run (velocityD cosd) sig6 envHundred 21).k + 2))
    100 ((run (velocityD cosd) sig6 envHundred 21).k + 3)
  have h := hrows 1 (by norm_num)
  rw [show (21 + (6 * 100 + 7)) = 628 from rfl] at h1 h2
  rw [h1, h2, dispatched_append, hd, List.nil_append, h7] at h
  simp only [rowValues] at h
  rw [h6, List.getElem?_map, List.getElem?_append_left (by rw [hlen]; norm_num), hv] at h
  simp only [Option.map_some', Option.some.injEq] at h
  obtain ⟨b1, b2⟩ := velocityD_tick_one cosd hacc
  exact sig6_ne_self _ (by linarith) (by linarith) h

/-! ### The velocity limit -/

theorem rne_le_of_le (y : ℚ) (n : ℤ) (h : y ≤ n) : rne y ≤ n := by
  have h1 : ⌊y⌋ ≤ n := by
    have := Int.floor_le y
    exact_mod_cast (le_trans this h)
  unfold rne
  split_ifs with ha hb hc
  · exact h1
  · have : (⌊y⌋ : ℚ) < n := by linarith
    have : ⌊y⌋ < n := by exact_mod_cast this
    omega
  · exact h1
  · have hy : (⌊y⌋ : ℚ) < n := by
      rcases lt_or_eq_of_le (not_lt.mp ha) with h3 | h3
      · exact absurd h3 hb
      · linarith
    have : ⌊y⌋ < n := by exact_mod_cast hy
    omega

theorem le_rne_of_le (y : ℚ) (n : ℤ) (h : (n : ℚ) ≤ y) : n ≤ rne y := by
  have h1 : n ≤ ⌊y⌋ := Int.le_floor.mpr h
  unfold rne
  split_ifs <;> omega

/-- Rounding to the nearest `double` does not pass the `double` 400. -/
theorem roundDouble_abs_le (x : ℚ) (h : |x| ≤ 400) : |roundDouble x| ≤ 400 := by
  by_cases hx : x = 0
  · simp [roundDouble, roundTo, hx]
  have hpos : 0 < |x| := abs_pos.mpr hx
  have h1 : ((2 : ℕ) : ℚ) ^ (Int.log 2 |x|) ≤ |x| := Int.zpow_log_le_self (by norm_num) hpos
  have he : Int.log 2 |x| < 9 := by
    by_contra hc
    have h9 : ((2 : ℕ) : ℚ) ^ (9 : ℤ) ≤ ((2 : ℕ) : ℚ) ^ (Int.log 2 |x|) :=
      zpow_le_zpow_right₀ (by norm_num) (by omega)
    have : ((2 : ℕ) : ℚ) ^ (9 : ℤ) = 512 := by norm_num
    linarith
  unfold roundDouble roundTo
  rw [if_neg hx]
  generalize Int.log 2 |x| = e at he
  obtain ⟨m, hm⟩ : ∃ m : ℕ, (52 : ℤ) - e = m := ⟨(52 - e).toNat, (Int.toNat_of_nonneg (by omega)).symm⟩
  have hq : ((2 : ℕ) : ℚ) ^ (e - 52) = 1 / 2 ^ m := by
    have : e - 52 = -(m : ℤ) := by omega
    rw [this, zpow_neg, zpow_natCast]; norm_num
  rw [hq]
  have h2m : (0 : ℚ) < 2 ^ m := by positivity
  have e1 : x / (1 / 2 ^ m) = x * 2 ^ m := by field_simp
  rw [e1]
  have hN : (((400 * 2 ^ m : ℤ)) : ℚ) = 400 * 2 ^ m := by push_cast; ring
  rw [abs_le] at h
  have u1 : rne (x * 2 ^ m) ≤ 400 * 2 ^ m :=
    rne_le_of_le _ _ (by rw [hN]; nlinarith [h.2])
  have u2 : -(400 * 2 ^ m) ≤ rne (x * 2 ^ m) := by
    have := le_rne_of_le (x * 2 ^ m) (-(400 * 2 ^ m)) (by push_cast; nlinarith [h.1])
    exact this
  have v1 : ((rne (x * 2 ^ m) : ℤ) : ℚ) ≤ 400 * 2 ^ m := by rw [← hN]; exact_mod_cast u1
  have v2 : -(400 * 2 ^ m : ℚ) ≤ ((rne (x * 2 ^ m) : ℤ) : ℚ) := by
    have : (((-(400 * 2 ^ m) : ℤ)) : ℚ) ≤ ((rne (x * 2 ^ m) : ℤ) : ℚ) := by exact_mod_cast u2
    push_cast at this
    linarith
  rw [abs_le]
  constructor
  · rw [mul_one_div, le_div_iff₀ h2m]; linarith
  · rw [mul_one_div, div_le_iff₀ h2m]; linarith

/-- The velocity computed in `double` arithmetic stays within the velocity limit,
for a library cosine that stays within [-1, 1]. -/
theorem velocityD_abs_le (cosd : ℚ → ℚ) (hc : ∀ x, |cosd x| ≤ 1) (t : ℚ) :
    |velocityD cosd t| ≤ 400 := by
  unfold velocityD
  apply roundDouble_abs_le
  have hV : ((VEL_LIM_RPM : ℕ) : ℚ) = 400 := by norm_num [VEL_LIM_RPM]
  rw [hV, abs_mul]
  have h400 : |(400 : ℚ)| = 400 := by norm_num
  rw [h400]
  have := hc (phase t)
  linarith

/-- Along a run the local `velocity` and every value sent to an axis stay within
the velocity limit, for the `double` computation with a library cosine that stays
within [-1, 1]. -/
theorem run_boundedD (cosd : ℚ → ℚ) (hc : ∀ x, |cosd x| ≤ 1) (fmt : ℚ → ℚ) (env : Env)
    (n : Nat) :
    |(run (velocityD cosd) fmt env n).vel| ≤ 400 ∧
      ∀ a v, Event.moveVelStart a v ∈ (run (velocityD cosd) fmt env n).trace → |v| ≤ 400 := by
  have hvel := velocityD_abs_le cosd hc
  refine run_invariant (velocityD cosd) fmt env
    (fun s => |s.vel| ≤ 400 ∧ ∀ a v, Event.moveVelStart a v ∈ s.trace → |v| ≤ 400) ?_ ?_ n
  · simp [init]
  · rintro s ⟨hv, ht⟩
    constructor
    · rcases step_vel (velocityD cosd) fmt env s with h | ⟨q, h⟩
      · rw [h]; exact hv
      · rw [h]; exact hvel _
    · obtain ⟨es, he, hes⟩ := step_trace (velocityD cosd) fmt env s
      intro a v hm
      rw [he, List.mem_append] at hm
      rcases hm with hm | hm
      · exact ht a v hm
      · rcases (hes a v hm).2.2 with ⟨_, h⟩ | ⟨_, h⟩
        · rw [h]; exact hv
        · rw [h]; simp

/-- C2: the velocity of line 94 never exceeds the velocity limit in magnitude, it
equals the limit, 400, at t = 0, and every velocity command of every run, the zero
command of the shutdown included, lies in [-VelLimit, +VelLimit]; and the same holds
of the velocity computed in `double` arithmetic, for every library cosine that
stays within [-1, 1] (and gives 1 at 0, for the equality). -/
theorem velocity_within_limit :
    (∀ t : ℝ, |velocity t| ≤ (VEL_LIM_RPM : ℝ)) ∧
    velocity 0 = (VEL_LIM_RPM : ℝ) ∧ (VEL_LIM_RPM : ℝ) = 400 ∧
    (∀ (fmt : ℝ → ℝ) (env : Env) (n : Nat) (a : Axis) (v : ℝ),
      Event.moveVelStart a v ∈ (run velocityQ fmt env n).trace →
        -(VEL_LIM_RPM : ℝ) ≤ v ∧ v ≤ (VEL_LIM_RPM : ℝ)) ∧
    ∀ cosd : ℚ → ℚ, (∀ x, |cosd x| ≤ 1) →
      (∀ t, |velocityD cosd t| ≤ (VEL_LIM_RPM : ℚ)) ∧
      (cosd 0 = 1 → velocityD cosd 0 = (VEL_LIM_RPM : ℚ)) ∧
      ∀ (fmt : ℚ → ℚ) (env : Env) (n : Nat) (a : Axis) (v : ℚ),
        Event.moveVelStart a v ∈ (run (velocityD cosd) fmt env n).trace →
          -(VEL_LIM_RPM : ℚ) ≤ v ∧ v ≤ (VEL_LIM_RPM : ℚ) := by
  have h400 : (VEL_LIM_RPM : ℝ) = 400 := by unfold VEL_LIM_RPM; norm_num
  have q400 : (VEL_LIM_RPM : ℚ) = 400 := by unfold VEL_LIM_RPM; norm_num
  rw [h400, q400]
  refine ⟨abs_velocity_le, ?_, rfl, ?_, ?_⟩
  · rw [velocity_eq]; simp
  · intro fmt env n a v hm
    exact abs_le.mp ((run_bounded fmt env n).2 a v hm)
  · intro cosd hc
    refine ⟨velocityD_abs_le cosd hc, velocityD_zero cosd, ?_⟩
    intro fmt env n a v hm
    exact abs_le.mp ((run_boundedD cosd hc fmt env n).2 a v hm)

end SinusoidalVelocityNode
